import Mathlib

/-!
Verification of the openflow streaming transcriber
(`src/transcriber/transcription/common-sdl.cpp` and
`src/transcriber/transcription/openflow_transcriber.cpp`).

The C++ code is shallowly embedded:

* float32 audio samples and VAD probabilities are modelled as rationals `ℚ`
  (float rounding is abstracted away; all claim-relevant reasoning is about
  counters, comparisons, and list structure);
* logits are modelled as `ℤ → Option ℚ`, where `none` stands for a value on
  which `std::isfinite` is false;
* the machine integers (`size_t`, `int64_t`, `uint64_t`) are modelled as
  `ℕ` / `ℤ` — the sample counters in question cannot realistically overflow
  (a `uint64_t` sample counter would overflow only after tens of thousands
  of years of 16 kHz audio);
* stateful C++ (the SDL ring buffer, the segmentation state machine, the
  dictionary manager) becomes explicit state passing; `fprintf(stderr, ...)`
  logging is reflected as a boolean "logged" flag or as an emitted-warning
  count where a claim mentions it;
* external inference services (whisper and Silero VAD) are opaque in the
  source and stay opaque here: the VAD is represented by an oracle
  `ℕ → ℚ` giving the probability returned for each consumed frame, the
  tokenizer by a function `String → List ℤ`, and `whisper_full` is modelled
  as succeeding (on success the source always prints exactly one `segment`
  event; a failed decode is logged and prints nothing).
-/

namespace Openflow


/-! ## Capture ring (`audio_async`, common-sdl.cpp) -/

/-- State of `audio_async`: `devId` is whether `m_dev_id_in` is non-zero,
`audio` is the ring buffer `m_audio` (its length is the capacity),
`audioPos`/`audioLen`/`totalSamples` are `m_audio_pos`/`m_audio_len`/
`m_total_samples`. -/
structure AudioAsync where
  devId : Bool
  running : Bool
  sampleRate : ℕ
  lenMs : ℕ
  audio : List ℚ
  audioPos : ℕ
  audioLen : ℕ
  totalSamples : ℕ
deriving DecidableEq


/-- Sample-by-sample ring write: the two `memcpy` calls of
`audio_async::callback` write `data[i]` to ring slot `(pos + i) % capacity`;
this recursion performs exactly those writes in order. -/
def writeRing (a : List ℚ) (p : ℕ) : List ℚ → List ℚ
  | [] => a
  | x :: xs => writeRing (a.set p x) ((p + 1) % a.length) xs


/-- Producer callback (`audio_async::callback`, common-sdl.cpp:148-182).
The byte count `len` is replaced by the delivered sample list directly
(`samples_in = len / sizeof(float)`); when the delivery exceeds the ring
capacity only its tail is written (`stream += len - size*4`). -/
def audioCallback (st : AudioAsync) (input : List ℚ) : AudioAsync :=
  if st.running = false then st
  else
    let samplesIn := input.length
    let cap := st.audio.length
    let nSamples := min samplesIn cap
    let data := input.drop (samplesIn - nSamples)
    { st with
      audio := writeRing st.audio st.audioPos data,
      audioPos := (st.audioPos + nSamples) % cap,
      audioLen := min (st.audioLen + nSamples) cap,
      totalSamples := st.totalSamples + samplesIn }


/-- Result of `audio_async::get`: the caller passes `result` and
`current_time_ms` by reference, so the model returns their final values;
`logged` records whether an early-out stderr message was printed. -/
structure GetResult where
  result : List ℚ
  timeMs : ℤ
  logged : Bool
deriving DecidableEq


/-- Consumer read (`audio_async::get`, common-sdl.cpp:184-231). `resultIn`
and `timeIn` are the values of the caller's out-parameters on entry; on the
`!m_dev_id_in` / `!m_running` early outs the source returns without touching
them. -/
def audioGet (st : AudioAsync) (ms : ℤ) (resultIn : List ℚ) (timeIn : ℤ) : GetResult :=
  if st.devId = false then ⟨resultIn, timeIn, true⟩
  else if st.running = false then ⟨resultIn, timeIn, true⟩
  else
    let msEff := if ms ≤ 0 then (st.lenMs : ℤ) else ms
    let nReq := (st.sampleRate * msEff.toNat) / 1000
    let n := min nReq st.audioLen
    let cap := st.audio.length
    let s0 := if st.audioPos < n then st.audioPos + cap - n else st.audioPos - n
    let res :=
      if cap < s0 + n then (st.audio.drop s0) ++ (st.audio.take (n - (cap - s0)))
      else (st.audio.drop s0).take n
    let time : ℕ := if 0 < st.sampleRate then (st.totalSamples * 1000) / st.sampleRate else 0
    ⟨res, (time : ℤ), false⟩


/-! ## Segmentation pipeline (openflow_transcriber.cpp, `main`)

The VAD frame pump and segmentation state machine of
`process_pending_chunks` / `flush_segment` / `emit_transcription`
(openflow_transcriber.cpp:1173-1485) and the offline driver
(openflow_transcriber.cpp:1604-1631).  The Silero VAD is an opaque
inference service; it is modelled by an oracle `ℕ → ℚ` giving the
probability it returns for the k-th frame consumed in a run.  The whisper
decode inside `emit_transcription` is likewise opaque and modelled as
succeeding; dictionary bookkeeping (which emits only `dictionary` events,
never `vad`/`segment` events) is modelled separately below. -/

/-- Fixed VAD frame size (`SileroVadRunner::expected_chunk_size`). -/
def vadChunkSamples : ℕ := 512


/-- `WHISPER_SAMPLE_RATE`; the pipeline runs at 16 kHz. -/
def sampleRateHz : ℕ := 16000


/-- Events printed to stdout by the pipeline (only the kinds the claims
count: per-frame `vad` packets and `segment` packets). The `segment`
payload keeps the audio that was handed to the decoder. -/
inductive Event where
  | vad (audioTimeMs : ℤ) (prob : ℚ) (vadChunk : ℕ) (rate : ℕ)
  | segment (segmentIndex : ℤ) (startMs endMs durationMs : ℤ) (avgVad : ℚ)
      (final : Bool) (partialSeq : ℕ) (audio : List ℚ)
deriving DecidableEq


/-- Parameters derived in `main` from `vad_params`
(openflow_transcriber.cpp:836-845). -/
structure PParams where
  startThreshold : ℚ
  stopThreshold : ℚ
  enablePartials : Bool
  stepSamples : ℤ
  prePaddingSamples : ℕ
  postPaddingSamples : ℕ
  minSilenceSamples : ℕ
  minSegmentSamples : ℕ
  maxSegmentSamples : ℕ
  emitVadEvents : Bool
deriving DecidableEq


/-- Mutable pipeline state of `main` (openflow_transcriber.cpp:935-949).
`utterEvents` is ghost instrumentation: the `vad`-free event trace of the
current utterance, cleared on activation — it does not influence the
dynamics and exists only to state per-utterance properties. -/
structure PState where
  pendingSamples : List ℚ
  preRoll : List ℚ
  currentSegment : List ℚ
  segmentProbSum : ℚ
  segmentProbCount : ℕ
  inSegment : Bool
  segmentStartSample : ℤ
  lastVoiceSample : ℤ
  processedSamplesTotal : ℤ
  segmentIndex : ℕ
  activeSegmentIndex : ℤ
  partialSequence : ℕ
  lastPartialEmitSample : ℤ
  utterEvents : List Event
deriving DecidableEq


/-- `reset_segment_state` (openflow_transcriber.cpp:953-969); also the
initial values of the pipeline locals. -/
def reset_segment_state : PState :=
  { pendingSamples := [], preRoll := [], currentSegment := [],
    segmentProbSum := 0, segmentProbCount := 0, inSegment := false,
    segmentStartSample := 0, lastVoiceSample := 0, processedSamplesTotal := 0,
    segmentIndex := 0, activeSegmentIndex := -1, partialSequence := 0,
    lastPartialEmitSample := 0, utterEvents := [] }


/-- The pre-roll maintenance loop: `push_back` each sample, `pop_front`
while the deque exceeds the cap (openflow_transcriber.cpp:1370-1375 and
1477-1482). -/
def pushTrim (cap : ℕ) (dq : List ℚ) (xs : List ℚ) : List ℚ :=
  xs.foldl (fun d x =>
    let d' := d ++ [x]
    if cap < d'.length then d'.tail else d') dq


/-- `emit_transcription` (openflow_transcriber.cpp:1173-1316), reduced to
its observable effect on the `segment` event stream: an empty buffer emits
nothing; otherwise whisper runs (modelled as succeeding — a failing
`whisper_full` would log and emit nothing) and exactly one `segment` event
is printed.  The embedded dictionary reload emits only `dictionary`
events, which this model tracks separately. -/
def emit_transcription (audioSegment : List ℚ) (segmentIdx : ℤ)
    (segmentStartSample : ℤ) (isFinal : Bool) (avgProbNow : ℚ)
    (partialSeq : ℕ) : List Event :=
  if audioSegment.isEmpty then []
  else
    let segmentStartMs := segmentStartSample * 1000 / (sampleRateHz : ℤ)
    let segmentEndMs := segmentStartMs + ((audioSegment.length : ℤ) * 1000) / (sampleRateHz : ℤ)
    let durationMs := max 0 (segmentEndMs - segmentStartMs)
    [Event.segment segmentIdx segmentStartMs segmentEndMs durationMs
      avgProbNow isFinal partialSeq audioSegment]


/-- `flush_segment` (openflow_transcriber.cpp:1322-1387). -/
def flush_segment (P : PParams) (forcedFlush : Bool) (st : PState) :
    PState × List Event :=
  if st.inSegment = false ∨ st.currentSegment.isEmpty then
    ({ st with currentSegment := [], segmentProbSum := 0,
               segmentProbCount := 0, inSegment := false }, [])
  else
    let keepSamples :=
      if forcedFlush then st.currentSegment.length
      else
        let wanted0 := st.lastVoiceSample + (P.postPaddingSamples : ℤ)
        let wantedEndSample :=
          if wanted0 < st.segmentStartSample then st.segmentStartSample else wanted0
        let desired := (max 0 (wantedEndSample - st.segmentStartSample)).toNat
        min desired st.currentSegment.length
    if keepSamples < P.minSegmentSamples then
      ({ st with currentSegment := [], segmentProbSum := 0,
                 segmentProbCount := 0, inSegment := false, preRoll := [] }, [])
    else
      let audioSegment := st.currentSegment.take keepSamples
      let leftover := st.currentSegment.drop keepSamples
      let avgProb :=
        if 0 < st.segmentProbCount then st.segmentProbSum / (st.segmentProbCount : ℚ) else 0
      let evs := emit_transcription audioSegment
        (if 0 ≤ st.activeSegmentIndex then st.activeSegmentIndex else (st.segmentIndex : ℤ))
        st.segmentStartSample true avgProb st.partialSequence
      ({ st with currentSegment := [], segmentProbSum := 0, segmentProbCount := 0,
                 inSegment := false,
                 preRoll := pushTrim P.prePaddingSamples [] leftover,
                 partialSequence := 0, lastPartialEmitSample := 0,
                 activeSegmentIndex := -1, segmentIndex := st.segmentIndex + 1,
                 segmentStartSample := st.processedSamplesTotal,
                 lastVoiceSample := st.processedSamplesTotal }, evs)


/-- One iteration of the `while` loop in `process_pending_chunks`
(openflow_transcriber.cpp:1389-1485) after the 512-sample chunk has been
popped from the pending deque and the VAD returned `prob` for it. -/
def process_chunk (P : PParams) (prob : ℚ) (chunkBuffer : List ℚ)
    (st : PState) : PState × List Event :=
  let total := st.processedSamplesTotal + (vadChunkSamples : ℤ)
  let chunkEndMs := total * 1000 / (sampleRateHz : ℤ)
  let vadEvs :=
    if P.emitVadEvents then [Event.vad chunkEndMs prob vadChunkSamples sampleRateHz] else []
  if st.inSegment = false ∧ P.startThreshold ≤ prob then
    let start0 := total - (st.preRoll.length : ℤ) - (vadChunkSamples : ℤ)
    let start := if start0 < 0 then 0 else start0
    ({ st with
        currentSegment := st.preRoll ++ chunkBuffer,
        segmentStartSample := start,
        activeSegmentIndex := (st.segmentIndex : ℤ),
        partialSequence := 0,
        lastPartialEmitSample := start,
        preRoll := [],
        lastVoiceSample := total,
        segmentProbSum := prob,
        segmentProbCount := 1,
        inSegment := true,
        processedSamplesTotal := total,
        utterEvents := [] }, vadEvs)
  else if st.inSegment = true then
    let seg := st.currentSegment ++ chunkBuffer
    let probSum := st.segmentProbSum + prob
    let probCount := st.segmentProbCount + 1
    let lastVoice := if P.stopThreshold ≤ prob then total else st.lastVoiceSample
    let segmentEndSample := st.segmentStartSample + (seg.length : ℤ)
    let avgNow := if 0 < probCount then probSum / (probCount : ℚ) else 0
    let doPartial := P.enablePartials = true ∧ P.minSegmentSamples ≤ seg.length
        ∧ P.stepSamples ≤ segmentEndSample - st.lastPartialEmitSample
    let partialStep :=
      if doPartial then
        (emit_transcription seg
          (if 0 ≤ st.activeSegmentIndex then st.activeSegmentIndex else (st.segmentIndex : ℤ))
          st.segmentStartSample false avgNow st.partialSequence,
         st.partialSequence + 1, segmentEndSample)
      else ([], st.partialSequence, st.lastPartialEmitSample)
    let partialEvs := partialStep.1
    let st1 : PState := { st with
        currentSegment := seg, segmentProbSum := probSum, segmentProbCount := probCount,
        lastVoiceSample := lastVoice, processedSamplesTotal := total,
        partialSequence := partialStep.2.1, lastPartialEmitSample := partialStep.2.2,
        utterEvents := st.utterEvents ++ partialEvs }
    let segmentSamples := total - st.segmentStartSample
    let silenceSamples := total - lastVoice
    if (P.maxSegmentSamples : ℤ) ≤ segmentSamples then
      let flushed := flush_segment P true st1
      ({ flushed.1 with utterEvents := st1.utterEvents ++ flushed.2 },
        vadEvs ++ partialEvs ++ flushed.2)
    else if (P.minSilenceSamples : ℤ) ≤ silenceSamples
        ∧ (P.postPaddingSamples : ℤ) ≤ silenceSamples then
      let flushed := flush_segment P false st1
      ({ flushed.1 with utterEvents := st1.utterEvents ++ flushed.2 },
        vadEvs ++ partialEvs ++ flushed.2)
    else (st1, vadEvs ++ partialEvs)
  else
    ({ st with preRoll := pushTrim P.prePaddingSamples st.preRoll chunkBuffer,
               processedSamplesTotal := total }, vadEvs)


/-- The end-of-input `flush_segment(true)` call
(openflow_transcriber.cpp:1515, 1551, 1630), with the ghost utterance
trace threaded through. -/
def final_flush (P : PParams) (st : PState) : PState × List Event :=
  let flushed := flush_segment P true st
  ({ flushed.1 with utterEvents := st.utterEvents ++ flushed.2 }, flushed.2)


/-- The `while (pending_samples.size() >= vad_chunk_samples)` loop of
`process_pending_chunks` (openflow_transcriber.cpp:1390-1394), with an
explicit fuel argument (the pending length suffices, every iteration
removes 512 samples) and `k` counting the frames consumed so far so the
oracle can be consulted per frame. -/
def process_pending_chunks : ℕ → PParams → (ℕ → ℚ) → ℕ → PState → PState × List Event
  | 0, _, _, _, st => (st, [])
  | Nat.succ fuel, P, oracle, k, st =>
    if vadChunkSamples ≤ st.pendingSamples.length then
      let chunkBuffer := st.pendingSamples.take vadChunkSamples
      let rest := st.pendingSamples.drop vadChunkSamples
      let step := process_chunk P (oracle k) chunkBuffer { st with pendingSamples := rest }
      let recur := process_pending_chunks fuel P oracle (k + 1) step.1
      (recur.1, step.2 ++ recur.2)
    else (st, [])


/-- Run `process_pending_chunks` until fewer than 512 samples remain. -/
def run_pending (P : PParams) (oracle : ℕ → ℚ) (st : PState) : PState × List Event :=
  process_pending_chunks st.pendingSamples.length P oracle 0 st


/-- Zero-padding of the pending queue to a whole number of VAD frames
(openflow_transcriber.cpp:1545-1549 and 1624-1628). -/
def padTo512 (pcm : List ℚ) : List ℚ :=
  let rem := pcm.length % vadChunkSamples
  if rem = 0 then pcm else pcm ++ List.replicate (vadChunkSamples - rem) 0


/-- The offline-file / stdin-audio per-file driver
(openflow_transcriber.cpp:1527-1551 and 1604-1631): reset, queue the
decoded samples, pad to a multiple of 512, process all complete frames,
final forced flush. -/
def offline_run (P : PParams) (oracle : ℕ → ℚ) (pcm : List ℚ) :
    PState × List Event :=
  let st0 := { reset_segment_state with pendingSamples := padTo512 pcm }
  let ran := run_pending P oracle st0
  let flushed := final_flush P ran.1
  (flushed.1, ran.2 ++ flushed.2)


/-- Default parameter values of `vad_params` converted to samples as in
`main` (openflow_transcriber.cpp:57-65, 836-845). -/
def defaultParams : PParams :=
  { startThreshold := 3/5, stopThreshold := 7/20, enablePartials := true,
    stepSamples := 3200, prePaddingSamples := 3200, postPaddingSamples := 5600,
    minSilenceSamples := 2400, minSegmentSamples := 4000,
    maxSegmentSamples := 192000, emitVadEvents := true }


/-- Partial-hypothesis sequence numbers (`final=false` segment events) in
emission order. -/
def partialSeqs (evs : List Event) : List ℕ :=
  evs.filterMap fun e =>
    match e with
    | .segment _ _ _ _ _ false ps _ => some ps
    | _ => none


/-- Final-hypothesis sequence numbers (`final=true` segment events) in
emission order. -/
def finalSeqs (evs : List Event) : List ℕ :=
  evs.filterMap fun e =>
    match e with
    | .segment _ _ _ _ _ true ps _ => some ps
    | _ => none


/-- Number of `vad` events in a trace. -/
def countVad (evs : List Event) : ℕ :=
  (evs.filter fun e =>
    match e with
    | .vad _ _ _ _ => true
    | _ => false).length


/-- Number of `segment` events (partial or final) in a trace. -/
def countSegment (evs : List Event) : ℕ :=
  (evs.filter fun e =>
    match e with
    | .segment _ _ _ _ _ _ _ _ => true
    | _ => false).length


/-- Per-utterance protocol invariant: while an utterance is active, the
partial (`final=false`) events emitted for it so far carry exactly the
sequence numbers `0, 1, ..., partial_sequence - 1` in order, and no final
event has been emitted for it. -/
def utterInv (st : PState) : Prop :=
  st.inSegment = true →
    (partialSeqs st.utterEvents = List.range st.partialSequence
     ∧ finalSeqs st.utterEvents = [])

/-- Parameter set reachable from the command line (`--post-padding-ms 0
--min-silence-ms 0`, defaults otherwise) under which a one-frame utterance
is discarded at its natural flush. -/
def shortUtterParams : PParams :=
  { defaultParams with postPaddingSamples := 0, minSilenceSamples := 0 }


/-- VAD oracle: the first frame is voiced (probability 9/10), all later
frames are silent. -/
def shortUtterOracle : ℕ → ℚ := fun k => if k = 0 then 9/10 else 0


/-- Parameter set reachable from the command line (`--min-segment-ms 32
--post-padding-ms 0`, defaults otherwise): `min_segment_samples = 512`. -/
def flushWitnessParams : PParams :=
  { defaultParams with minSegmentSamples := 512, postPaddingSamples := 0 }


/-- An active-utterance state as produced by an activation frame followed
by one silent frame (buffer of two 512-sample frames, voice last heard at
sample 512). -/
def flushWitnessState : PState :=
  { reset_segment_state with
      currentSegment := List.replicate 1024 0,
      segmentProbSum := 9/10,
      segmentProbCount := 2,
      inSegment := true,
      segmentStartSample := 0,
      lastVoiceSample := 512,
      processedSamplesTotal := 1024,
      activeSegmentIndex := 0 }


/-! ## Bias and logits callback (`whisper_logits_filter_cb`,
openflow_transcriber.cpp:523-583) -/

/-- Logits vector modelled as a function on token ids; `none` marks an
entry on which `std::isfinite(logits[id])` is false, `some v` a finite
value. -/
def Logits : Type := ℤ → Option ℚ


/-- The `add_bias` helper (openflow_transcriber.cpp:545-550).  Note the
source guards the timestamp/control range only when `token_beg > 0`. -/
def add_bias (nVocab tokenBeg : ℤ) (logits : Logits) (tokenId : ℤ) (bias : ℚ) : Logits :=
  if tokenId < 0 ∨ nVocab ≤ tokenId then logits
  else if 0 < tokenBeg ∧ tokenBeg ≤ tokenId then logits
  else
    match logits tokenId with
    | none => logits
    | some v => fun j => if j = tokenId then some (v + bias) else logits j


/-- The inner `for (l = max_l; l >= 1; --l)` suffix-match search
(openflow_transcriber.cpp:557-565): the largest `l` in `[1, fuel]` with
`seq.take l` equal to the last `l` prefix tokens. -/
def contMatchLen (pfx seq : List ℤ) : ℕ → Option ℕ
  | 0 => none
  | l + 1 =>
    if seq.take (l + 1) = pfx.drop (pfx.length - (l + 1)) then some (l + 1)
    else contMatchLen pfx seq l


/-- `boosted_cont[next_id] += bias` on the `unordered_map` of continuation
boosts (openflow_transcriber.cpp:568). -/
def mapAdd : List (ℤ × ℚ) → ℤ → ℚ → List (ℤ × ℚ)
  | [], k, v => [(k, v)]
  | (k0, v0) :: rest, k, v =>
      if k = k0 then (k0, v0 + v) :: rest else (k0, v0) :: mapAdd rest k v


/-- One iteration of the continuation-boost loop over dictionary sequences
(openflow_transcriber.cpp:554-572). -/
def applyCont (nVocab tokenBeg : ℤ) (biasCont : ℚ) (pfx : List ℤ)
    (acc : Logits × List (ℤ × ℚ)) (seq : List ℤ) : Logits × List (ℤ × ℚ) :=
  if seq.length < 2 then acc
  else
    match contMatchLen pfx seq (min pfx.length (seq.length - 1)) with
    | none => acc
    | some l =>
        (add_bias nVocab tokenBeg acc.1 (seq.getD l 0) biasCont,
          mapAdd acc.2 (seq.getD l 0) biasCont)


/-- Phase A of `whisper_logits_filter_cb`
(openflow_transcriber.cpp:552-583): continuation boosts over all
dictionary sequences, then — only when no continuation matched — a
first-token boost for every id in `dict_first_tokens`.  Returns the new
logits, the continuation-boost map and `boosted_first_total`. -/
def bias_phase (nVocab tokenBeg : ℤ) (dictSeqs : List (List ℤ)) (firstTokens : List ℤ)
    (biasFirst biasCont : ℚ) (pfx : List ℤ) (logits : Logits) :
    Logits × List (ℤ × ℚ) × ℕ :=
  let contStep := dictSeqs.foldl (applyCont nVocab tokenBeg biasCont pfx) (logits, [])
  if contStep.2.isEmpty then
    (firstTokens.foldl (fun lg tid => add_bias nVocab tokenBeg lg tid biasFirst) contStep.1,
      contStep.2, firstTokens.length)
  else (contStep.1, contStep.2, 0)


/-! ## Beam-size clamp (`emit_transcription`,
openflow_transcriber.cpp:1213-1254) -/

/-- `WHISPER_MAX_DECODERS`: the fixed decoder-array size of the acoustic
model, cited in the source comment (openflow_transcriber.cpp:1215-1218). -/
def kWhisperMaxDecoders : ℕ := 8


/-- Default `beam_search.beam_size` of
`whisper_full_default_params(WHISPER_SAMPLING_BEAM_SEARCH)`; documented in
the source comment "0 = whisper default (beam search default is 5)"
(openflow_transcriber.cpp:43). -/
def whisperDefaultBeamSize : ℕ := 5


/-- `requested_beam = params.beam_size > 0 ? params.beam_size :
wparams.beam_search.beam_size` (openflow_transcriber.cpp:1246);
`parse_args` keeps `beam_size ≥ 0`. -/
def requestedBeam (beamSizeParam : ℕ) : ℕ :=
  if 0 < beamSizeParam then beamSizeParam else whisperDefaultBeamSize


/-- `std::clamp(requested_beam, 2, kWhisperMaxDecoders)`
(openflow_transcriber.cpp:1247): the beam size handed to the acoustic
model on every bias-enabled decode. -/
def clampedBeam (beamSizeParam : ℕ) : ℕ :=
  if requestedBeam beamSizeParam < 2 then 2
  else if kWhisperMaxDecoders < requestedBeam beamSizeParam then kWhisperMaxDecoders
  else requestedBeam beamSizeParam


/-- One decode's clamp warning (openflow_transcriber.cpp:1248-1252):
`(new warned flag, warnings printed to stderr this decode)`. -/
def beamWarnStep (beamSizeParam : ℕ) (warned : Bool) : Bool × ℕ :=
  if requestedBeam beamSizeParam ≠ clampedBeam beamSizeParam ∧ warned = false
  then (true, 1) else (warned, 0)


/-- Warnings printed over `d` successive decodes of one process, folding
the `warned_beam_size_clamp` flag. -/
def beamWarnings (beamSizeParam : ℕ) : ℕ → Bool → ℕ
  | 0, _ => 0
  | d + 1, warned =>
      (beamWarnStep beamSizeParam warned).2
        + beamWarnings beamSizeParam d (beamWarnStep beamSizeParam warned).1


/-! ## Dictionary manager (`reload_dictionary_if_needed` and
`split_dictionary_entries`, openflow_transcriber.cpp:221-259, 971-1170)

The tokenizer is the acoustic model's opaque service; `whisper_token_count`
and `whisper_tokenize` are modelled by a single function
`tokenize : String → List ℤ` (a variant is skipped exactly when the count
or the tokenization is non-positive, i.e. when `tokenize` yields `[]`).
The steady-clock poll timer is reflected by the boolean input
`pollElapsed` (`elapsed_ms >= dictionary_poll_ms`), the filesystem by the
inputs `mtime` (`std::filesystem::last_write_time` with its error code)
and `content` (`none` models an unreadable file). -/

/-- The ASCII whitespace set of C `isspace`. -/
def isSpaceC (c : Char) : Bool :=
  c == ' ' || c == '\t' || c == '\n' || c == Char.ofNat 11 || c == Char.ofNat 12 || c == '\r'


/-- Trim leading and trailing whitespace from a character list (the `flush`
lambda's trim, openflow_transcriber.cpp:230-236). -/
def trimC (l : List Char) : List Char :=
  ((l.dropWhile (fun c => isSpaceC c)).reverse.dropWhile (fun c => isSpaceC c)).reverse


/-- `split_dictionary_entries` (openflow_transcriber.cpp:221-259): split on
ASCII whitespace, trim, drop empties, deduplicate preserving first-seen
order. -/
def split_dictionary_entries (raw : String) : List String :=
  let step := fun (acc : List String × List Char) (c : Char) =>
    if isSpaceC c then
      (let t := trimC acc.2
       if t.isEmpty then acc.1 else acc.1 ++ [String.mk t], ([] : List Char))
    else (acc.1, acc.2 ++ [c])
  let fin := raw.toList.foldl step ([], [])
  let out :=
    let t := trimC fin.2
    if t.isEmpty then fin.1 else fin.1 ++ [String.mk t]
  out.foldl
    (fun (uniq : List String) s =>
      if s = "" then uniq else if s ∈ uniq then uniq else uniq ++ [s]) []


/-- Accumulator of the tokenisation loop
(openflow_transcriber.cpp:1115-1154): the four indices, the local
`first_seen` set and the running token total. -/
structure RebuildAcc where
  tokenSeqs : List (List ℤ)
  entryTexts : List String
  firstTokens : List ℤ
  firstTokenIds : Finset ℤ
  firstSeen : Finset ℤ
  totalTokens : ℕ
deriving DecidableEq


/-- One dictionary entry's contribution (openflow_transcriber.cpp:
1121-1153): tokenize the entry and, unless it already starts with a space,
its space-prefixed variant; skip empty tokenizations; record the first
token id once. -/
def rebuildStep (tokenize : String → List ℤ) (acc : RebuildAcc) (entry : String) :
    RebuildAcc :=
  if entry = "" then acc
  else
    let variants := if entry.front ≠ ' ' then [entry, " " ++ entry] else [entry]
    variants.foldl
      (fun acc2 text =>
        let seq := tokenize text
        if seq.length = 0 then acc2
        else
          let acc3 :=
            if seq.headI ∈ acc2.firstSeen then acc2
            else { acc2 with
                    firstSeen := insert seq.headI acc2.firstSeen,
                    firstTokens := acc2.firstTokens ++ [seq.headI],
                    firstTokenIds := insert seq.headI acc2.firstTokenIds }
          { acc3 with
              tokenSeqs := acc3.tokenSeqs ++ [seq],
              entryTexts := acc3.entryTexts ++ [entry],
              totalTokens := acc3.totalTokens + seq.length })
      acc


/-- The full tokenisation loop over all parsed entries. -/
def rebuildIndices (entries : List String) (tokenize : String → List ℤ) : RebuildAcc :=
  entries.foldl (rebuildStep tokenize) ⟨[], [], [], ∅, ∅, 0⟩


/-- Dictionary-manager state (openflow_transcriber.cpp:971-980);
`lastMtime` is `last_dictionary_write_time` (`none` is
`file_time_type::min()`, never produced by a real file). -/
structure DictState where
  cache : String
  tokenSeqs : List (List ℤ)
  entryTexts : List String
  firstTokens : List ℤ
  firstTokenIds : Finset ℤ
  lastEntriesRaw : ℕ
  lastTotalTokens : ℕ
  lastError : String
  lastMtime : Option ℤ
deriving DecidableEq


/-- Initial dictionary state. -/
def dictInit : DictState := ⟨"", [], [], [], ∅, 0, 0, "", none⟩


/-- Fields of one `dictionary` stdout event (`emit_dictionary_event`,
openflow_transcriber.cpp:982-1042; the optional `words` samples are
presentation only). -/
structure DictEvent where
  attempted : Bool
  reloaded : Bool
  ok : Bool
  errorMsg : String
  entriesRaw : ℕ
  entries : ℕ
  firstTokensCount : ℕ
  totalTokens : ℕ
  cacheBytes : ℕ
deriving DecidableEq


/-- Build the event from the current state. -/
def emitDictEvent (st : DictState) (attempted reloaded : Bool) : DictEvent :=
  ⟨attempted, reloaded, st.lastError == "", st.lastError, st.lastEntriesRaw,
    st.tokenSeqs.length, st.firstTokens.length, st.lastTotalTokens, st.cache.length⟩


/-- The error paths clear every index and record the error
(openflow_transcriber.cpp:1045-1054, 1066-1077, 1086-1098);
`last_dictionary_write_time` is left untouched there. -/
def clearedDict (err : String) (st : DictState) : DictState :=
  { st with cache := "", tokenSeqs := [], entryTexts := [], firstTokens := [],
            firstTokenIds := ∅, lastEntriesRaw := 0, lastTotalTokens := 0,
            lastError := err }


/-- `reload_dictionary_if_needed` (openflow_transcriber.cpp:1044-1170).
`pathSet` is whether `dictionary_path` is non-empty, `pollElapsed` whether
at least `dictionary_poll_ms` elapsed since the last reload attempt. -/
def reload_dictionary_if_needed (pathSet force pollElapsed : Bool)
    (mtime : Except String ℤ) (content : Option String)
    (tokenize : String → List ℤ) (st : DictState) : DictState × List DictEvent :=
  if pathSet = false then
    let st2 := clearedDict "dictionary_file not set" st
    (st2, [emitDictEvent st2 true true])
  else if force = false ∧ pollElapsed = false then (st, [])
  else
    match mtime with
    | .error msg =>
        let st2 := clearedDict msg st
        (st2, [emitDictEvent st2 true true])
    | .ok m =>
        if force = false ∧ some m = st.lastMtime then
          (st, [emitDictEvent st true false])
        else
          match content with
          | none =>
              let st2 := clearedDict "failed to open dictionary_file" st
              (st2, [emitDictEvent st2 true true])
          | some raw =>
              let entries := split_dictionary_entries raw
              let acc := rebuildIndices entries tokenize
              let st2 : DictState :=
                { cache := raw, tokenSeqs := acc.tokenSeqs,
                  entryTexts := acc.entryTexts,
                  firstTokens := acc.firstTokens, firstTokenIds := acc.firstTokenIds,
                  lastEntriesRaw := entries.length, lastTotalTokens := acc.totalTokens,
                  lastError := "", lastMtime := some m }
              (st2, [emitDictEvent st2 true true])


/-- The dictionary index invariants of the spec: every sequence is
non-empty with its first token in the id set; the id set and the ordered
list have identical membership with no duplicates; the token total is the
sum of the sequence lengths. -/
def DictInv (st : DictState) : Prop :=
  (∀ seq ∈ st.tokenSeqs, seq ≠ [] ∧ seq.headI ∈ st.firstTokenIds)
  ∧ st.firstTokenIds = st.firstTokens.toFinset
  ∧ st.firstTokens.Nodup
  ∧ st.lastTotalTokens = (st.tokenSeqs.map List.length).sum


/-- The corresponding invariant on the rebuild accumulator, strengthened
with `first_seen = firstTokenIds` (the two sets receive identical
inserts). -/
def AccInv (acc : RebuildAcc) : Prop :=
  (∀ seq ∈ acc.tokenSeqs, seq ≠ [] ∧ seq.headI ∈ acc.firstTokenIds)
  ∧ acc.firstTokenIds = acc.firstTokens.toFinset
  ∧ acc.firstTokens.Nodup
  ∧ acc.firstSeen = acc.firstTokenIds
  ∧ acc.totalTokens = (acc.tokenSeqs.map List.length).sum

/-! ## Theorems -/


theorem writeRing_length (xs : List ℚ) : ∀ (a : List ℚ) (p : ℕ),
    (writeRing a p xs).length = a.length := by
  induction xs with
  | nil => intro a p; rfl
  | cons x xs ih =>
      intro a p
      rw [writeRing, ih, List.length_set]


theorem add_mod_ne_self {L p k : ℕ} (hp : p < L) (hk0 : 0 < k) (hk : k < L) :
    (p + k) % L ≠ p := by
  intro h
  rcases Nat.lt_or_ge (p + k) L with hlt | hge
  · rw [Nat.mod_eq_of_lt hlt] at h; omega
  · have h2 : (p + k) % L = p + k - L := by
      rw [Nat.mod_eq_sub_mod hge, Nat.mod_eq_of_lt (by omega)]
    omega


theorem succ_mod_add (L p i : ℕ) :
    ((p + 1) % L + i) % L = (p + (i + 1)) % L := by
  rw [Nat.mod_add_mod]
  congr 1
  omega


theorem writeRing_getD_untouched (xs : List ℚ) : ∀ (a : List ℚ) (p q : ℕ),
    p < a.length →
    (∀ i, i < xs.length → (p + i) % a.length ≠ q) →
    (writeRing a p xs).getD q 0 = a.getD q 0 := by
  induction xs with
  | nil => intro a p q _ _; rfl
  | cons x xs ih =>
      intro a p q hp hq
      have hL : 0 < a.length := Nat.lt_of_le_of_lt (Nat.zero_le p) hp
      have hpq : p ≠ q := by
        have := hq 0 (Nat.succ_pos _)
        simpa [Nat.mod_eq_of_lt hp] using this
      rw [writeRing]
      have hlen : (a.set p x).length = a.length := List.length_set a p x
      have step : (writeRing (a.set p x) ((p + 1) % a.length) xs).getD q 0
          = (a.set p x).getD q 0 := by
        apply ih
        · rw [hlen]; exact Nat.mod_lt _ hL
        · intro i hi
          rw [hlen, succ_mod_add]
          exact hq (i + 1) (by simp only [List.length_cons]; omega)
      rw [step]
      rcases Nat.lt_or_ge q a.length with hqlt | hqge
      · rw [List.getD_eq_getElem _ _ (by rw [hlen]; exact hqlt),
          List.getD_eq_getElem _ _ hqlt]
        exact List.getElem_set_ne hpq _
      · rw [List.getD_eq_default _ _ (by rw [hlen]; exact hqge),
          List.getD_eq_default _ _ hqge]


theorem writeRing_getD (xs : List ℚ) : ∀ (a : List ℚ) (p : ℕ),
    p < a.length → xs.length ≤ a.length →
    ∀ i, i < xs.length →
    (writeRing a p xs).getD ((p + i) % a.length) 0 = xs.getD i 0 := by
  induction xs with
  | nil => intro a p _ _ i hi; exact absurd hi (Nat.not_lt_zero i)
  | cons x xs ih =>
      intro a p hp hn i hi
      have hL : 0 < a.length := Nat.lt_of_le_of_lt (Nat.zero_le p) hp
      have hlen : (a.set p x).length = a.length := List.length_set a p x
      match i with
      | 0 =>
          rw [writeRing]
          have huntouched : (writeRing (a.set p x) ((p + 1) % a.length) xs).getD
                ((p + 0) % a.length) 0
              = (a.set p x).getD ((p + 0) % a.length) 0 := by
            apply writeRing_getD_untouched
            · rw [hlen]; exact Nat.mod_lt _ hL
            · intro j hj
              rw [hlen, succ_mod_add]
              have hp0 : (p + 0) % a.length = p := by
                simpa using Nat.mod_eq_of_lt hp
              rw [hp0]
              have hj1 : j + 1 < a.length := by
                simp only [List.length_cons] at hn
                omega
              exact add_mod_ne_self hp (Nat.succ_pos j) hj1
          rw [huntouched]
          have hpa : (p + 0) % a.length = p := by simpa using Nat.mod_eq_of_lt hp
          rw [hpa, List.getD_eq_getElem _ _ (by rw [hlen]; exact hp)]
          simp [List.getElem_set_self]
      | Nat.succ j =>
          rw [writeRing]
          have hshift : (p + (j + 1)) % a.length = ((p + 1) % a.length + j) % a.length := by
            rw [succ_mod_add]
          rw [hshift]
          have := ih (a.set p x) ((p + 1) % a.length)
            (by rw [hlen]; exact Nat.mod_lt _ hL)
            (by rw [hlen]; simp only [List.length_cons] at hn; omega)
            j (by simp only [List.length_cons] at hi; omega)
          rw [hlen] at this
          rw [this]
          rfl


/-- C1: for every delivery of `s` samples to the producer callback while
running, `total_samples` increases by exactly `s` even when `s` exceeds the
ring capacity `C` (in which case only the last `min s C` samples are written
into the buffer, at slots `(pos + i) % C`); and a successful `get` (device
open, running) reports `timeline_ms = floor(total_samples * 1000 /
sample_rate)`. -/
theorem capture_ring_total_samples_and_timeline
    (st : AudioAsync) (input : List ℚ) (ms : ℤ) (resultIn : List ℚ) (timeIn : ℤ)
    (hrun : st.running = true) (hpos : st.audioPos < st.audio.length) :
    (audioCallback st input).totalSamples = st.totalSamples + input.length
    ∧ (audioCallback st input).audioPos
        = (st.audioPos + min input.length st.audio.length) % st.audio.length
    ∧ (audioCallback st input).audioLen
        = min (st.audioLen + min input.length st.audio.length) st.audio.length
    ∧ (∀ i, i < min input.length st.audio.length →
        (audioCallback st input).audio.getD ((st.audioPos + i) % st.audio.length) 0
          = (input.drop (input.length - min input.length st.audio.length)).getD i 0)
    ∧ (st.devId = true →
        (audioGet (audioCallback st input) ms resultIn timeIn).timeMs
          = (((st.totalSamples + input.length) * 1000) / st.sampleRate : ℕ)) := by
  have hcb : audioCallback st input =
      { st with
        audio := writeRing st.audio st.audioPos
          (input.drop (input.length - min input.length st.audio.length)),
        audioPos := (st.audioPos + min input.length st.audio.length) % st.audio.length,
        audioLen := min (st.audioLen + min input.length st.audio.length) st.audio.length,
        totalSamples := st.totalSamples + input.length } := by
    rw [audioCallback]
    simp [hrun]
  refine ⟨by rw [hcb], by rw [hcb], by rw [hcb], ?_, ?_⟩
  · intro i hi
    rw [hcb]
    apply writeRing_getD _ _ _ hpos _ i
    · rw [List.length_drop]
      omega
    · rw [List.length_drop]
      omega
  · intro hdev
    rw [hcb, audioGet]
    simp only [hdev, hrun]
    rcases Nat.eq_zero_or_pos st.sampleRate with h0 | hpos'
    · simp [h0]
    · simp [hpos']


/-- Witness for C1 at a concrete state: ring of capacity 4, write position 1,
a delivery of 6 samples (exceeding capacity, so only the last 4 are kept). -/
theorem capture_ring_total_samples_and_timeline_witness :
    (let st : AudioAsync := ⟨true, true, 16000, 2000, [0, 0, 0, 0], 1, 0, 5⟩
     st.running = true ∧ st.audioPos < st.audio.length)
    ∧ (let st : AudioAsync := ⟨true, true, 16000, 2000, [0, 0, 0, 0], 1, 0, 5⟩
       let input : List ℚ := [1, 2, 3, 4, 5, 6]
       (audioCallback st input).totalSamples = st.totalSamples + input.length
       ∧ (audioCallback st input).audioPos
           = (st.audioPos + min input.length st.audio.length) % st.audio.length
       ∧ (audioCallback st input).audioLen
           = min (st.audioLen + min input.length st.audio.length) st.audio.length
       ∧ (∀ i, i < min input.length st.audio.length →
           (audioCallback st input).audio.getD ((st.audioPos + i) % st.audio.length) 0
             = (input.drop (input.length - min input.length st.audio.length)).getD i 0)
       ∧ (st.devId = true →
           (audioGet (audioCallback st input) 100 [] 0).timeMs
             = (((st.totalSamples + input.length) * 1000) / st.sampleRate : ℕ))) :=
  ⟨⟨rfl, by decide⟩,
    capture_ring_total_samples_and_timeline _ [1, 2, 3, 4, 5, 6] 100 [] 0 rfl (by decide)⟩


/-- C6 (amended): when `get` is called with no opened device or before
`resume`, the source returns before touching the caller's out-parameters, so
the output vector is left exactly as the caller passed it in (a caller
passing a fresh empty vector observes an empty result) and the condition is
logged. -/
theorem get_not_ready_leaves_out_params_unchanged
    (st : AudioAsync) (ms : ℤ) (resultIn : List ℚ) (timeIn : ℤ)
    (h : st.devId = false ∨ st.running = false) :
    audioGet st ms resultIn timeIn = ⟨resultIn, timeIn, true⟩ := by
  rcases h with h | h
  · rw [audioGet]; simp [h]
  · rw [audioGet]
    rcases hd : st.devId with _ | _
    · simp
    · simp [h]


/-- Witness for the amended C6 at a concrete not-running state. -/
theorem get_not_ready_leaves_out_params_unchanged_witness :
    ((⟨true, false, 16000, 2000, [], 0, 0, 0⟩ : AudioAsync).devId = false
      ∨ (⟨true, false, 16000, 2000, [], 0, 0, 0⟩ : AudioAsync).running = false)
    ∧ audioGet ⟨true, false, 16000, 2000, [], 0, 0, 0⟩ 100 [1] 7 = ⟨[1], 7, true⟩ :=
  ⟨Or.inr rfl,
    get_not_ready_leaves_out_params_unchanged _ 100 [1] 7 (Or.inr rfl)⟩


/-- Counterexample to C6 as stated: `get` before `resume` does NOT return an
empty sample sequence for every caller-passed vector — the early out leaves
the caller's vector untouched, so a caller passing `[1]` gets back `[1]`. -/
theorem get_before_resume_keeps_caller_vector :
    (audioGet ⟨true, false, 16000, 2000, [], 0, 0, 0⟩ 100 [1] 7).result = [1]
    ∧ (audioGet ⟨true, false, 16000, 2000, [], 0, 0, 0⟩ 100 [1] 7).result ≠ [] := by
  constructor
  · rfl
  · intro h
    simp [audioGet] at h


theorem partialSeqs_append (a b : List Event) :
    partialSeqs (a ++ b) = partialSeqs a ++ partialSeqs b := by
  simp [partialSeqs]


theorem finalSeqs_append (a b : List Event) :
    finalSeqs (a ++ b) = finalSeqs a ++ finalSeqs b := by
  simp [finalSeqs]


theorem countVad_append (a b : List Event) :
    countVad (a ++ b) = countVad a + countVad b := by
  simp [countVad]


theorem countSegment_append (a b : List Event) :
    countSegment (a ++ b) = countSegment a + countSegment b := by
  simp [countSegment]


theorem partialSeqs_vadEvs (b : Bool) (t : ℤ) (p : ℚ) (c r : ℕ) :
    partialSeqs (if b = true then [Event.vad t p c r] else []) = [] := by
  cases b <;> simp [partialSeqs]


theorem finalSeqs_vadEvs (b : Bool) (t : ℤ) (p : ℚ) (c r : ℕ) :
    finalSeqs (if b = true then [Event.vad t p c r] else []) = [] := by
  cases b <;> simp [finalSeqs]


theorem countVad_vadEvs (b : Bool) (t : ℤ) (p : ℚ) (c r : ℕ) :
    countVad (if b = true then [Event.vad t p c r] else []) = if b = true then 1 else 0 := by
  cases b <;> simp [countVad]


theorem countSegment_vadEvs (b : Bool) (t : ℤ) (p : ℚ) (c r : ℕ) :
    countSegment (if b = true then [Event.vad t p c r] else []) = 0 := by
  cases b <;> simp [countSegment]


theorem flush_segment_pending (P : PParams) (forced : Bool) (st : PState) :
    (flush_segment P forced st).1.pendingSamples = st.pendingSamples := by
  rw [flush_segment]
  dsimp only
  (repeat' split) <;> rfl


theorem flush_segment_total (P : PParams) (forced : Bool) (st : PState) :
    (flush_segment P forced st).1.processedSamplesTotal = st.processedSamplesTotal := by
  rw [flush_segment]
  dsimp only
  (repeat' split) <;> rfl


theorem flush_segment_inactive_after (P : PParams) (forced : Bool) (st : PState) :
    (flush_segment P forced st).1.inSegment = false := by
  rw [flush_segment]
  dsimp only
  (repeat' split) <;> rfl


theorem process_chunk_pending (P : PParams) (prob : ℚ) (chunk : List ℚ) (st : PState) :
    (process_chunk P prob chunk st).1.pendingSamples = st.pendingSamples := by
  rw [process_chunk]
  dsimp only
  (repeat' split) <;> first
    | rfl
    | exact flush_segment_pending _ _ _


theorem process_chunk_total (P : PParams) (prob : ℚ) (chunk : List ℚ) (st : PState) :
    (process_chunk P prob chunk st).1.processedSamplesTotal
      = st.processedSamplesTotal + (vadChunkSamples : ℤ) := by
  rw [process_chunk]
  dsimp only
  (repeat' split) <;> first
    | rfl
    | exact flush_segment_total _ _ _


/-- A frame whose probability is below the start threshold, arriving while
inactive, only extends the pre-roll and emits at most a `vad` event. -/
theorem process_chunk_silent (P : PParams) (prob : ℚ) (chunk : List ℚ) (st : PState)
    (hin : st.inSegment = false) (hprob : prob < P.startThreshold) :
    process_chunk P prob chunk st =
      ({ st with
          preRoll := pushTrim P.prePaddingSamples st.preRoll chunk,
          processedSamplesTotal := st.processedSamplesTotal + (vadChunkSamples : ℤ) },
        if P.emitVadEvents = true then
          [Event.vad ((st.processedSamplesTotal + (vadChunkSamples : ℤ)) * 1000 / (sampleRateHz : ℤ))
            prob vadChunkSamples sampleRateHz]
        else []) := by
  rw [process_chunk]
  simp [hin, not_le.mpr hprob]


/-- Flushing while inactive clears the segment accumulators and emits
nothing. -/
theorem flush_segment_inactive (P : PParams) (forced : Bool) (st : PState)
    (hin : st.inSegment = false) :
    flush_segment P forced st =
      ({ st with currentSegment := [], segmentProbSum := 0,
                 segmentProbCount := 0, inSegment := false }, []) := by
  rw [flush_segment]
  simp [hin]


/-- The pending-queue loop consumes exactly the complete 512-sample frames:
afterwards `pending_samples` holds the remainder modulo 512 and
`processed_samples_total` has advanced by 512 per consumed frame. -/
theorem process_pending_chunks_consumed :
    ∀ (fuel : ℕ) (P : PParams) (oracle : ℕ → ℚ) (k : ℕ) (st : PState),
    st.pendingSamples.length ≤ fuel →
    (process_pending_chunks fuel P oracle k st).1.pendingSamples.length
        = st.pendingSamples.length % 512
    ∧ (process_pending_chunks fuel P oracle k st).1.processedSamplesTotal
        = st.processedSamplesTotal + ((512 * (st.pendingSamples.length / 512) : ℕ) : ℤ) := by
  intro fuel
  induction fuel with
  | zero =>
      intro P oracle k st hlen
      have h0 : st.pendingSamples.length = 0 := Nat.le_zero.mp hlen
      rw [process_pending_chunks]
      constructor
      · rw [h0]
      · rw [h0]
        simp
  | succ fuel ih =>
      intro P oracle k st hlen
      rw [process_pending_chunks]
      by_cases h512 : vadChunkSamples ≤ st.pendingSamples.length
      · rw [if_pos h512]
        dsimp only
        set st1 := (process_chunk P (oracle k) (st.pendingSamples.take vadChunkSamples)
          { st with pendingSamples := st.pendingSamples.drop vadChunkSamples }).1 with hst1
        have hpend1 : st1.pendingSamples.length = st.pendingSamples.length - 512 := by
          rw [hst1, process_chunk_pending]
          simp [vadChunkSamples]
        have htot1 : st1.processedSamplesTotal
            = st.processedSamplesTotal + (vadChunkSamples : ℤ) := by
          rw [hst1, process_chunk_total]
        have hfuel1 : st1.pendingSamples.length ≤ fuel := by
          rw [hpend1]
          simp only [vadChunkSamples] at h512
          omega
        obtain ⟨hlenr, htotr⟩ := ih P oracle (k + 1) st1 hfuel1
        constructor
        · rw [hlenr, hpend1]
          simp only [vadChunkSamples] at h512
          omega
        · rw [htotr, htot1, hpend1]
          simp only [vadChunkSamples] at h512 ⊢
          have hdiv : st.pendingSamples.length / 512
              = (st.pendingSamples.length - 512) / 512 + 1 := by omega
          rw [hdiv]
          push_cast
          ring
      · rw [if_neg h512]
        simp only [vadChunkSamples, not_le] at h512
        constructor
        · exact (Nat.mod_eq_of_lt h512).symm
        · have : st.pendingSamples.length / 512 = 0 := Nat.div_eq_of_lt h512
          rw [this]
          simp


/-- Feeding only frames whose probability stays below the start threshold
leaves the machine inactive, emits one `vad` event per frame (when enabled)
and no `segment` events. -/
theorem process_pending_chunks_silent :
    ∀ (fuel : ℕ) (P : PParams) (oracle : ℕ → ℚ) (k : ℕ) (st : PState),
    st.pendingSamples.length ≤ fuel →
    st.inSegment = false →
    (∀ j, oracle j < P.startThreshold) →
    (process_pending_chunks fuel P oracle k st).1.inSegment = false
    ∧ countVad (process_pending_chunks fuel P oracle k st).2
        = (if P.emitVadEvents = true then st.pendingSamples.length / 512 else 0)
    ∧ countSegment (process_pending_chunks fuel P oracle k st).2 = 0 := by
  intro fuel
  induction fuel with
  | zero =>
      intro P oracle k st hlen hin _
      have h0 : st.pendingSamples.length = 0 := Nat.le_zero.mp hlen
      rw [process_pending_chunks]
      refine ⟨hin, ?_, rfl⟩
      rw [h0]
      cases P.emitVadEvents <;> simp [countVad]
  | succ fuel ih =>
      intro P oracle k st hlen hin hsil
      rw [process_pending_chunks]
      by_cases h512 : vadChunkSamples ≤ st.pendingSamples.length
      · rw [if_pos h512]
        dsimp only
        rw [process_chunk_silent P (oracle k) (st.pendingSamples.take vadChunkSamples)
          { st with pendingSamples := st.pendingSamples.drop vadChunkSamples } hin (hsil k)]
        dsimp only
        set st1 : PState := { st with
          pendingSamples := st.pendingSamples.drop vadChunkSamples,
          preRoll := pushTrim P.prePaddingSamples st.preRoll
            (st.pendingSamples.take vadChunkSamples),
          processedSamplesTotal := st.processedSamplesTotal + (vadChunkSamples : ℤ) } with hst1
        have hfuel1 : st1.pendingSamples.length ≤ fuel := by
          simp only [hst1, List.length_drop]
          simp only [vadChunkSamples] at h512 ⊢
          omega
        obtain ⟨hinr, hvadr, hsegr⟩ := ih P oracle (k + 1) st1 hfuel1 hin hsil
        refine ⟨hinr, ?_, ?_⟩
        · have hplen : st1.pendingSamples.length = st.pendingSamples.length - 512 := by
            simp [hst1, vadChunkSamples]
          rw [countVad_append, hvadr, countVad_vadEvs, hplen]
          simp only [vadChunkSamples] at h512
          cases P.emitVadEvents
          · simp
          · simp
            omega
        · rw [countSegment_append, hsegr, countSegment_vadEvs]
      · rw [if_neg h512]
        simp only [vadChunkSamples, not_le] at h512
        refine ⟨hin, ?_, rfl⟩
        have : st.pendingSamples.length / 512 = 0 := Nat.div_eq_of_lt h512
        rw [this]
        cases P.emitVadEvents <;> simp [countVad]


/-- Length of the zero-padded pending queue: the next multiple of 512. -/
theorem padTo512_length (pcm : List ℚ) :
    (padTo512 pcm).length = 512 * ((pcm.length + 511) / 512) := by
  rw [padTo512]
  split
  · next h =>
      simp only [vadChunkSamples] at h
      omega
  · next h =>
      simp only [vadChunkSamples] at h ⊢
      rw [List.length_append, List.length_replicate]
      omega


/-- The padding appends only zeros after the original samples. -/
theorem padTo512_take (pcm : List ℚ) :
    (padTo512 pcm).take pcm.length = pcm
    ∧ ∃ padLen, (padTo512 pcm).drop pcm.length = List.replicate padLen (0 : ℚ) := by
  rw [padTo512]
  split
  · exact ⟨List.take_length pcm, 0, by simp⟩
  · refine ⟨?_, vadChunkSamples - pcm.length % vadChunkSamples, ?_⟩
    · rw [List.take_left]
    · rw [List.drop_left]


/-- Silence through the whole offline driver: no segment events, and one
`vad` event per processed (padded) frame when enabled. -/
theorem offline_run_silent (P : PParams) (oracle : ℕ → ℚ) (pcm : List ℚ)
    (hsil : ∀ j, oracle j < P.startThreshold) :
    countSegment (offline_run P oracle pcm).2 = 0
    ∧ countVad (offline_run P oracle pcm).2
        = (if P.emitVadEvents = true then (pcm.length + 511) / 512 else 0) := by
  set st0 : PState := { reset_segment_state with pendingSamples := padTo512 pcm } with hst0
  have hlen0 : st0.pendingSamples.length = 512 * ((pcm.length + 511) / 512) := by
    simpa [hst0] using padTo512_length pcm
  have hin0 : st0.inSegment = false := rfl
  obtain ⟨hinr, hvadr, hsegr⟩ :=
    process_pending_chunks_silent st0.pendingSamples.length P oracle 0 st0 le_rfl hin0 hsil
  have hrun : offline_run P oracle pcm
      = ((final_flush P (process_pending_chunks st0.pendingSamples.length P oracle 0 st0).1).1,
         (process_pending_chunks st0.pendingSamples.length P oracle 0 st0).2
           ++ (final_flush P
                (process_pending_chunks st0.pendingSamples.length P oracle 0 st0).1).2) := rfl
  have hflush : (final_flush P
      (process_pending_chunks st0.pendingSamples.length P oracle 0 st0).1).2 = [] := by
    rw [final_flush, flush_segment_inactive P true _ hinr]
  rw [hrun]
  dsimp only
  rw [hflush]
  constructor
  · rw [countSegment_append, hsegr]
    rfl
  · rw [countVad_append, hvadr, hlen0]
    have : countVad ([] : List Event) = 0 := rfl
    rw [this, Nat.add_zero, Nat.mul_div_cancel_left _ (by norm_num : (0:ℕ) < 512)]


/-- C5 (amended): an input all of whose frames stay below the start
threshold produces zero `segment` events and — because the offline path
zero-pads the pending queue to a whole frame — exactly `⌈n/512⌉` `vad`
events for an `n`-sample input (not `⌊n/512⌋`: the trailing partial frame
is padded and processed too). -/
theorem silence_zero_segments_ceil_vad_events (P : PParams) (oracle : ℕ → ℚ)
    (pcm : List ℚ)
    (hsil : ∀ j, oracle j < P.startThreshold)
    (hemit : P.emitVadEvents = true) :
    countSegment (offline_run P oracle pcm).2 = 0
    ∧ countVad (offline_run P oracle pcm).2 = (pcm.length + 511) / 512 := by
  obtain ⟨hseg, hvad⟩ := offline_run_silent P oracle pcm hsil
  rw [hemit] at hvad
  exact ⟨hseg, by simpa using hvad⟩


/-- Witness for the amended C5 at a concrete input: 512 samples of silence
yield one `vad` event and no `segment` event. -/
theorem silence_zero_segments_ceil_vad_events_witness :
    ((∀ j : ℕ, (fun _ : ℕ => (0 : ℚ)) j < defaultParams.startThreshold)
      ∧ defaultParams.emitVadEvents = true)
    ∧ (countSegment (offline_run defaultParams (fun _ => 0) (List.replicate 512 0)).2 = 0
        ∧ countVad (offline_run defaultParams (fun _ => 0) (List.replicate 512 0)).2
            = ((List.replicate 512 (0:ℚ)).length + 511) / 512) :=
  ⟨⟨fun _ => by norm_num [defaultParams], rfl⟩,
    silence_zero_segments_ceil_vad_events defaultParams (fun _ => 0)
      (List.replicate 512 0) (fun _ => by norm_num [defaultParams]) rfl⟩


/-- Counterexample to C5 as stated: the spec's own literal scenario — 2.0 s
of zeros at 16 kHz (32000 samples) with the default thresholds — produces
63 `vad` events through the offline path (the 256 trailing samples are
zero-padded into a 63rd frame), not `⌊2.0 * 16000 / 512⌋ = 62`. -/
theorem silence_two_seconds_emits_63_vad_events :
    countVad (offline_run defaultParams (fun _ => 0) (List.replicate 32000 0)).2 = 63
    ∧ countSegment (offline_run defaultParams (fun _ => 0) (List.replicate 32000 0)).2 = 0
    ∧ 2 * 16000 / 512 = 62
    ∧ countVad (offline_run defaultParams (fun _ => 0) (List.replicate 32000 0)).2
        ≠ 2 * 16000 / 512 := by
  obtain ⟨hseg, hvad⟩ :=
    offline_run_silent defaultParams (fun _ => 0) (List.replicate 32000 0)
      (fun _ => by norm_num [defaultParams])
  have hv : countVad (offline_run defaultParams (fun _ => 0) (List.replicate 32000 0)).2
      = 63 := by
    rw [hvad]
    norm_num [defaultParams]
  exact ⟨hv, hseg, by norm_num, by rw [hv]; norm_num⟩


/-- C10: before processing, the pending queue is zero-padded up to the next
multiple of 512 (the original samples are kept as a prefix and only zeros
are appended), and the run then consumes every complete frame: an
`n`-sample file is processed as exactly `⌈n/512⌉` VAD frames
(`processed_samples_total` advances by `512 * ⌈n/512⌉`) and the pending
queue is left empty — no trailing samples are unprocessed or discarded. -/
theorem offline_padding_processes_all_samples (P : PParams) (oracle : ℕ → ℚ)
    (pcm : List ℚ) :
    (padTo512 pcm).take pcm.length = pcm
    ∧ (∃ padLen, (padTo512 pcm).drop pcm.length = List.replicate padLen (0 : ℚ))
    ∧ (padTo512 pcm).length = 512 * ((pcm.length + 511) / 512)
    ∧ (run_pending P oracle
        { reset_segment_state with pendingSamples := padTo512 pcm }).1.pendingSamples = []
    ∧ (run_pending P oracle
        { reset_segment_state with pendingSamples := padTo512 pcm }).1.processedSamplesTotal
          = ((512 * ((pcm.length + 511) / 512) : ℕ) : ℤ) := by
  obtain ⟨htake, hdrop⟩ := padTo512_take pcm
  set st0 : PState := { reset_segment_state with pendingSamples := padTo512 pcm } with hst0
  have hlen0 : st0.pendingSamples.length = 512 * ((pcm.length + 511) / 512) := by
    simpa [hst0] using padTo512_length pcm
  obtain ⟨hpend, htot⟩ :=
    process_pending_chunks_consumed st0.pendingSamples.length P oracle 0 st0 le_rfl
  refine ⟨htake, hdrop, padTo512_length pcm, ?_, ?_⟩
  · rw [run_pending]
    have hz : (process_pending_chunks st0.pendingSamples.length P oracle 0 st0).1.pendingSamples.length = 0 := by
      rw [hpend, hlen0, Nat.mul_mod_right]
    exact List.length_eq_zero.mp hz
  · rw [run_pending, htot, hlen0]
    have hz : 512 * ((pcm.length + 511) / 512) / 512 = (pcm.length + 511) / 512 :=
      Nat.mul_div_cancel_left _ (by norm_num)
    rw [hz]
    have h0 : st0.processedSamplesTotal = 0 := rfl
    rw [h0, zero_add]


theorem isEmpty_false_of_pos {l : List ℚ} (h : 0 < l.length) : l.isEmpty = false := by
  cases l
  · simp at h
  · rfl


/-- C3: on a natural (silence-triggered) flush of an active utterance the
audio kept for decoding is the first
`min(buffer_length, max(last_voice_sample + post_padding_samples,
start_sample) - start_sample)` samples of the utterance buffer; when that
kept length is below `min_segment_samples` no segment event is emitted (the
utterance is silently discarded), and otherwise exactly one `segment` event
with `final = true` and `avg_vad = prob_sum / prob_count` is emitted,
carrying exactly the kept audio.  The hypotheses `hlen`, `hlv`, `hpc` are
invariants of every active utterance (activation appends a full 512-sample
frame, sets `last_voice_sample` 512 samples past `start_sample`, and counts
one probability). -/
theorem natural_flush_keeps_padded_audio_or_discards (P : PParams) (st : PState)
    (hin : st.inSegment = true)
    (hlen : 512 ≤ st.currentSegment.length)
    (hlv : st.segmentStartSample + 512 ≤ st.lastVoiceSample)
    (hpc : 0 < st.segmentProbCount) :
    (min ((max (st.lastVoiceSample + (P.postPaddingSamples : ℤ)) st.segmentStartSample
          - st.segmentStartSample).toNat) st.currentSegment.length < P.minSegmentSamples →
        (flush_segment P false st).2 = [])
    ∧ (P.minSegmentSamples ≤ min ((max (st.lastVoiceSample + (P.postPaddingSamples : ℤ))
          st.segmentStartSample - st.segmentStartSample).toNat) st.currentSegment.length →
        ∃ sMs eMs dMs, (flush_segment P false st).2
          = [Event.segment
              (if 0 ≤ st.activeSegmentIndex then st.activeSegmentIndex else (st.segmentIndex : ℤ))
              sMs eMs dMs
              (st.segmentProbSum / (st.segmentProbCount : ℚ))
              true st.partialSequence
              (st.currentSegment.take
                (min ((max (st.lastVoiceSample + (P.postPaddingSamples : ℤ))
                  st.segmentStartSample - st.segmentStartSample).toNat)
                  st.currentSegment.length))]) := by
  have hnil : ¬ st.currentSegment = [] := by
    intro h
    rw [h] at hlen
    simp at hlen
  have hnotempty : ¬ (st.inSegment = false ∨ st.currentSegment.isEmpty = true) := by
    rintro (h | h)
    · rw [hin] at h; cases h
    · exact hnil (List.isEmpty_iff.mp h)
  have hwanted : ¬ (st.lastVoiceSample + (P.postPaddingSamples : ℤ) < st.segmentStartSample) := by
    omega
  have hmaxeq : max (st.lastVoiceSample + (P.postPaddingSamples : ℤ)) st.segmentStartSample
      = st.lastVoiceSample + (P.postPaddingSamples : ℤ) := by
    omega
  have hmax0 : max 0 (st.lastVoiceSample + (P.postPaddingSamples : ℤ) - st.segmentStartSample)
      = st.lastVoiceSample + (P.postPaddingSamples : ℤ) - st.segmentStartSample := by
    omega
  have hkeepeq : (max 0 ((if st.lastVoiceSample + (P.postPaddingSamples : ℤ) < st.segmentStartSample
        then st.segmentStartSample else st.lastVoiceSample + (P.postPaddingSamples : ℤ))
        - st.segmentStartSample)).toNat ⊓ st.currentSegment.length
      = min ((max (st.lastVoiceSample + (P.postPaddingSamples : ℤ)) st.segmentStartSample
          - st.segmentStartSample).toNat) st.currentSegment.length := by
    rw [if_neg hwanted, hmaxeq, hmax0]
  constructor
  · intro hlt
    rw [flush_segment]
    simp only [if_neg hnotempty, Bool.false_eq_true, if_false]
    rw [hkeepeq, if_pos hlt]
  · intro hge
    rw [flush_segment]
    simp only [if_neg hnotempty, Bool.false_eq_true, if_false]
    rw [hkeepeq, if_neg (by omega), if_pos hpc]
    have hkpos : 0 < min ((max (st.lastVoiceSample + (P.postPaddingSamples : ℤ))
        st.segmentStartSample - st.segmentStartSample).toNat) st.currentSegment.length := by
      rw [hmaxeq]
      have h512 : (512 : ℕ) ≤ (st.lastVoiceSample + (P.postPaddingSamples : ℤ)
          - st.segmentStartSample).toNat := by
        omega
      omega
    have htake : (st.currentSegment.take
        (min ((max (st.lastVoiceSample + (P.postPaddingSamples : ℤ))
          st.segmentStartSample - st.segmentStartSample).toNat)
          st.currentSegment.length)).isEmpty = false := by
      have hlt0 : 0 < (st.currentSegment.take
          (min ((max (st.lastVoiceSample + (P.postPaddingSamples : ℤ))
            st.segmentStartSample - st.segmentStartSample).toNat)
            st.currentSegment.length)).length := by
        rw [List.length_take]
        omega
      exact isEmpty_false_of_pos hlt0
    rw [emit_transcription, if_neg (by rw [htake]; simp)]
    exact ⟨_, _, _, rfl⟩


theorem partialSeqs_emit_final (a : List ℚ) (idx s : ℤ) (avg : ℚ) (ps : ℕ) :
    partialSeqs (emit_transcription a idx s true avg ps) = [] := by
  rw [emit_transcription]
  split <;> simp [partialSeqs]


theorem finalSeqs_emit_partial (a : List ℚ) (idx s : ℤ) (avg : ℚ) (ps : ℕ) :
    finalSeqs (emit_transcription a idx s false avg ps) = [] := by
  rw [emit_transcription]
  split <;> simp [finalSeqs]


theorem finalSeqs_emit_final (a : List ℚ) (idx s : ℤ) (avg : ℚ) (ps : ℕ)
    (h : a.isEmpty = false) :
    finalSeqs (emit_transcription a idx s true avg ps) = [ps] := by
  rw [emit_transcription]
  rw [if_neg (by rw [h]; simp)]
  simp [finalSeqs]


theorem partialSeqs_emit_partial (a : List ℚ) (idx s : ℤ) (avg : ℚ) (ps : ℕ)
    (h : a.isEmpty = false) :
    partialSeqs (emit_transcription a idx s false avg ps) = [ps] := by
  rw [emit_transcription]
  rw [if_neg (by rw [h]; simp)]
  simp [partialSeqs]


/-- A final-flavoured `emit_transcription` emits either nothing (empty
buffer) or exactly one final event carrying the given counter. -/
theorem finalSeqs_emit_final_or (a : List ℚ) (idx s : ℤ) (avg : ℚ) (ps : ℕ) :
    finalSeqs (emit_transcription a idx s true avg ps) = []
    ∨ finalSeqs (emit_transcription a idx s true avg ps) = [ps] := by
  rw [emit_transcription]
  split
  · left; rfl
  · right; simp [finalSeqs]


/-- Any flush emits no partial events, and at most one final event, carrying
the current `partial_sequence` counter. -/
theorem flush_segment_events (P : PParams) (forced : Bool) (st : PState) :
    partialSeqs (flush_segment P forced st).2 = []
    ∧ (finalSeqs (flush_segment P forced st).2 = []
        ∨ finalSeqs (flush_segment P forced st).2 = [st.partialSequence]) := by
  rw [flush_segment]
  dsimp only
  repeat' split
  all_goals first
    | exact ⟨rfl, Or.inl rfl⟩
    | exact ⟨partialSeqs_emit_final _ _ _ _ _, finalSeqs_emit_final_or _ _ _ _ _⟩


/-- A forced flush of an active utterance whose whole buffer meets the
minimum length emits exactly one final event carrying the current
`partial_sequence` counter. -/
theorem flush_segment_forced_final (P : PParams) (st : PState)
    (hin : st.inSegment = true) (hne : ¬ st.currentSegment = [])
    (hmin : P.minSegmentSamples ≤ st.currentSegment.length) :
    finalSeqs (flush_segment P true st).2 = [st.partialSequence] := by
  have hnotempty : ¬ (st.inSegment = false ∨ st.currentSegment.isEmpty = true) := by
    rintro (h | h)
    · rw [hin] at h; cases h
    · exact hne (List.isEmpty_iff.mp h)
  rw [flush_segment]
  simp only [if_neg hnotempty, eq_self_iff_true, if_true]
  rw [if_neg (by omega)]
  dsimp only
  rw [List.take_length]
  apply finalSeqs_emit_final
  apply isEmpty_false_of_pos
  cases hcs : st.currentSegment
  · exact absurd hcs hne
  · simp


theorem partialSeqs_nil : partialSeqs ([] : List Event) = [] := rfl


theorem finalSeqs_nil : finalSeqs ([] : List Event) = [] := rfl


theorem partialSeqs_vad_one (t : ℤ) (p : ℚ) (c r : ℕ) :
    partialSeqs [Event.vad t p c r] = [] := rfl


theorem finalSeqs_vad_one (t : ℤ) (p : ℚ) (c r : ℕ) :
    finalSeqs [Event.vad t p c r] = [] := rfl


/-- A start-triggering frame while inactive opens a fresh utterance. -/
theorem process_chunk_activate (P : PParams) (prob : ℚ) (chunk : List ℚ) (st : PState)
    (hin : st.inSegment = false) (hprob : P.startThreshold ≤ prob) :
    process_chunk P prob chunk st =
      ({ st with
          currentSegment := st.preRoll ++ chunk,
          segmentStartSample :=
            if st.processedSamplesTotal + (vadChunkSamples : ℤ)
                - (st.preRoll.length : ℤ) - (vadChunkSamples : ℤ) < 0 then 0
            else st.processedSamplesTotal + (vadChunkSamples : ℤ)
                - (st.preRoll.length : ℤ) - (vadChunkSamples : ℤ),
          activeSegmentIndex := (st.segmentIndex : ℤ),
          partialSequence := 0,
          lastPartialEmitSample :=
            if st.processedSamplesTotal + (vadChunkSamples : ℤ)
                - (st.preRoll.length : ℤ) - (vadChunkSamples : ℤ) < 0 then 0
            else st.processedSamplesTotal + (vadChunkSamples : ℤ)
                - (st.preRoll.length : ℤ) - (vadChunkSamples : ℤ),
          preRoll := [],
          lastVoiceSample := st.processedSamplesTotal + (vadChunkSamples : ℤ),
          segmentProbSum := prob,
          segmentProbCount := 1,
          inSegment := true,
          processedSamplesTotal := st.processedSamplesTotal + (vadChunkSamples : ℤ),
          utterEvents := [] },
        if P.emitVadEvents = true then
          [Event.vad ((st.processedSamplesTotal + (vadChunkSamples : ℤ)) * 1000 / (sampleRateHz : ℤ))
            prob vadChunkSamples sampleRateHz]
        else []) := by
  rw [process_chunk]
  simp [hin, hprob]


/-- If a final event appears in a flush-carrying step trace, it is the
step's single final, its sequence number is the count of partials in the
ghost trace, and the machine leaves the active state. -/
theorem flush_branch_emits_protocol (P : PParams) (b : Bool) (st1 : PState)
    (vadE partE : List Event)
    (hne : finalSeqs (vadE ++ partE ++ (flush_segment P b st1).2) ≠ [])
    (hfv : finalSeqs vadE = []) (hfp2 : finalSeqs partE = [])
    (hg : partialSeqs st1.utterEvents = List.range st1.partialSequence)
    (hgf : finalSeqs st1.utterEvents = []) :
    ∃ n, finalSeqs (vadE ++ partE ++ (flush_segment P b st1).2) = [n]
      ∧ (flush_segment P b st1).1.inSegment = false
      ∧ partialSeqs (st1.utterEvents ++ (flush_segment P b st1).2) = List.range n
      ∧ finalSeqs (st1.utterEvents ++ (flush_segment P b st1).2) = [n] := by
  obtain ⟨hfp, hff⟩ := flush_segment_events P b st1
  rw [finalSeqs_append, finalSeqs_append, hfv, hfp2] at hne
  simp only [List.nil_append] at hne
  rcases hff with hff | hff
  · exact absurd hff hne
  · refine ⟨st1.partialSequence, ?_, flush_segment_inactive_after P b st1, ?_, ?_⟩
    · rw [finalSeqs_append, finalSeqs_append, hfv, hfp2, hff]
      simp
    · rw [partialSeqs_append, hg, hfp, List.append_nil]
    · rw [finalSeqs_append, hgf, hff, List.nil_append]


/-- C2 (amended): within an utterance the `final=false` events carry
`partial_seq` values `0, 1, 2, ...` in strictly increasing order; a step
emits at most one `final=true` event, and when it does, the utterance's
full trace consists of partials `0..n-1` followed by that single final
whose `partial_seq` is exactly `n`, the count of partials emitted, and the
machine returns to inactive.  The end-of-input forced flush likewise emits
exactly one final carrying the partial count, provided the buffer is
non-empty and meets the minimum length — a flush whose kept audio is
shorter discards the utterance with NO final event, so an utterance gets
at most one final, not always exactly one. -/
theorem utterance_partial_final_protocol (P : PParams) (st : PState) (prob : ℚ)
    (chunk : List ℚ) (hchunk : chunk.length = vadChunkSamples) (hinv : utterInv st) :
    utterInv (process_chunk P prob chunk st).1
    ∧ (finalSeqs (process_chunk P prob chunk st).2 ≠ [] →
        ∃ n, finalSeqs (process_chunk P prob chunk st).2 = [n]
          ∧ st.inSegment = true
          ∧ (process_chunk P prob chunk st).1.inSegment = false
          ∧ partialSeqs (process_chunk P prob chunk st).1.utterEvents = List.range n
          ∧ finalSeqs (process_chunk P prob chunk st).1.utterEvents = [n])
    ∧ (st.inSegment = true → st.currentSegment ≠ [] →
        P.minSegmentSamples ≤ st.currentSegment.length →
        finalSeqs (final_flush P st).2 = [st.partialSequence]
        ∧ partialSeqs st.utterEvents = List.range st.partialSequence
        ∧ (final_flush P st).1.inSegment = false) := by
  have conj3 : st.inSegment = true → st.currentSegment ≠ [] →
      P.minSegmentSamples ≤ st.currentSegment.length →
      finalSeqs (final_flush P st).2 = [st.partialSequence]
      ∧ partialSeqs st.utterEvents = List.range st.partialSequence
      ∧ (final_flush P st).1.inSegment = false := by
    intro h2 hne hmin
    refine ⟨?_, (hinv h2).1, ?_⟩
    · rw [final_flush]
      dsimp only
      exact flush_segment_forced_final P st h2 hne hmin
    · rw [final_flush]
      dsimp only
      exact flush_segment_inactive_after P true st
  rcases Bool.eq_false_or_eq_true st.inSegment with hseg | hseg
  · obtain ⟨hp0, hf0⟩ := hinv hseg
    have hc1 : ¬ (st.inSegment = false ∧ P.startThreshold ≤ prob) := by
      rw [hseg]
      rintro ⟨h, _⟩
      cases h
    have hE : (st.currentSegment ++ chunk).isEmpty = false := by
      apply isEmpty_false_of_pos
      rw [List.length_append, hchunk]
      have : 0 < vadChunkSamples := by norm_num [vadChunkSamples]
      omega
    refine ⟨?_, ?_, conj3⟩
    · rw [process_chunk]
      simp only [if_neg hc1, if_pos hseg]
      repeat' split
      all_goals first
        | (try dsimp only
           intro h
           try dsimp only at h
           rw [flush_segment_inactive_after] at h
           simp at h)
        | (try dsimp only
           intro _
           try dsimp only
           constructor
           · first
             | rw [partialSeqs_append, hp0, partialSeqs_nil, List.append_nil]
             | rw [partialSeqs_append, hp0,
                 partialSeqs_emit_partial _ _ _ _ _ hE, ← List.range_succ]
           · first
             | rw [finalSeqs_append, hf0, finalSeqs_nil, List.append_nil]
             | rw [finalSeqs_append, hf0, finalSeqs_emit_partial, List.append_nil])
    · rw [process_chunk]
      simp only [if_neg hc1, if_pos hseg]
      repeat' split
      all_goals first
        | (try dsimp only
           intro h
           exfalso
           apply h
           rw [finalSeqs_append]
           first
             | rw [finalSeqs_vad_one, List.nil_append]
             | rw [finalSeqs_nil, List.nil_append]
           all_goals first
             | exact finalSeqs_emit_partial _ _ _ _ _
             | rfl)
        | (try dsimp only
           intro h
           have haux := flush_branch_emits_protocol P _ _ _ _ h
           obtain ⟨n, h1, h2, h3, h4⟩ :=
             haux
               (by first
                 | exact finalSeqs_vad_one _ _ _ _
                 | rfl)
               (by first
                 | exact finalSeqs_emit_partial _ _ _ _ _
                 | rfl)
               (by try dsimp only
                   first
                     | rw [partialSeqs_append, hp0, partialSeqs_nil, List.append_nil]
                     | rw [partialSeqs_append, hp0,
                         partialSeqs_emit_partial _ _ _ _ _ hE, ← List.range_succ])
               (by try dsimp only
                   first
                     | rw [finalSeqs_append, hf0, finalSeqs_nil, List.append_nil]
                     | rw [finalSeqs_append, hf0, finalSeqs_emit_partial, List.append_nil])
           refine ⟨n, h1, hseg, ?_, ?_, ?_⟩
           · dsimp only
             exact h2
           · dsimp only
             exact h3
           · dsimp only
             exact h4)
  · by_cases hpr : P.startThreshold ≤ prob
    · have heq := process_chunk_activate P prob chunk st hseg hpr
      refine ⟨?_, ?_, conj3⟩
      · rw [heq]
        intro _
        exact ⟨rfl, rfl⟩
      · rw [heq]
        dsimp only
        intro h
        exact absurd (finalSeqs_vadEvs _ _ _ _ _) h
    · have heq := process_chunk_silent P prob chunk st hseg (lt_of_not_le hpr)
      refine ⟨?_, ?_, conj3⟩
      · rw [heq]
        intro h
        simp [hseg] at h
      · rw [heq]
        dsimp only
        intro h
        exact absurd (finalSeqs_vadEvs _ _ _ _ _) h


/-- Witness for the amended C2 at a concrete input: one silent frame
processed from the initial state. -/
theorem utterance_partial_final_protocol_witness :
    ((List.replicate 512 (0:ℚ)).length = vadChunkSamples ∧ utterInv reset_segment_state)
    ∧ (utterInv (process_chunk defaultParams reset_segment_state.segmentProbSum
          (List.replicate 512 0) reset_segment_state).1
      ∧ (finalSeqs (process_chunk defaultParams reset_segment_state.segmentProbSum
            (List.replicate 512 0) reset_segment_state).2 ≠ [] →
          ∃ n, finalSeqs (process_chunk defaultParams reset_segment_state.segmentProbSum
              (List.replicate 512 0) reset_segment_state).2 = [n]
            ∧ reset_segment_state.inSegment = true
            ∧ (process_chunk defaultParams reset_segment_state.segmentProbSum
                (List.replicate 512 0) reset_segment_state).1.inSegment = false
            ∧ partialSeqs (process_chunk defaultParams reset_segment_state.segmentProbSum
                (List.replicate 512 0) reset_segment_state).1.utterEvents = List.range n
            ∧ finalSeqs (process_chunk defaultParams reset_segment_state.segmentProbSum
                (List.replicate 512 0) reset_segment_state).1.utterEvents = [n])
      ∧ (reset_segment_state.inSegment = true → reset_segment_state.currentSegment ≠ [] →
          defaultParams.minSegmentSamples ≤ reset_segment_state.currentSegment.length →
          finalSeqs (final_flush defaultParams reset_segment_state).2
              = [reset_segment_state.partialSequence]
          ∧ partialSeqs reset_segment_state.utterEvents
              = List.range reset_segment_state.partialSequence
          ∧ (final_flush defaultParams reset_segment_state).1.inSegment = false)) :=
  ⟨⟨by rw [List.length_replicate]; rfl, fun h => Bool.noConfusion h⟩,
    utterance_partial_final_protocol defaultParams reset_segment_state
      reset_segment_state.segmentProbSum (List.replicate 512 0)
      (by rw [List.length_replicate]; rfl) (fun h => Bool.noConfusion h)⟩


set_option maxRecDepth 100000 in
/-- Counterexample to C2 as stated: with `--post-padding-ms 0
--min-silence-ms 0` (and the default `min_segment_ms = 250`), a voiced
frame followed by a silent frame opens an utterance (the machine enters the
active state after chunk 1) and terminates it at the natural flush (the
machine is inactive at the end), yet the run emits ZERO `final=true`
segment events — the kept audio (512 samples) is below
`min_segment_samples = 4000`, so the utterance is silently discarded
instead of receiving exactly one final. -/
theorem discarded_utterance_emits_no_final_event :
    (process_chunk shortUtterParams (9/10) (List.replicate 512 0)
        { reset_segment_state with pendingSamples := List.replicate 512 0 }).1.inSegment = true
    ∧ (offline_run shortUtterParams shortUtterOracle (List.replicate 1024 0)).1.inSegment = false
    ∧ finalSeqs (offline_run shortUtterParams shortUtterOracle (List.replicate 1024 0)).2 = []
    ∧ countSegment (offline_run shortUtterParams shortUtterOracle (List.replicate 1024 0)).2 = 0 :=
  ⟨by with_unfolding_all rfl, by with_unfolding_all rfl,
   by with_unfolding_all rfl, by with_unfolding_all rfl⟩


/-- Witness for C3 at a concrete active state (the emitting branch:
kept = min(1024, 512 + 0) = 512 ≥ min_segment_samples = 512). -/
theorem natural_flush_keeps_padded_audio_or_discards_witness :
    (flushWitnessState.inSegment = true
      ∧ 512 ≤ flushWitnessState.currentSegment.length
      ∧ flushWitnessState.segmentStartSample + 512 ≤ flushWitnessState.lastVoiceSample
      ∧ 0 < flushWitnessState.segmentProbCount)
    ∧ ((min ((max (flushWitnessState.lastVoiceSample + (flushWitnessParams.postPaddingSamples : ℤ))
          flushWitnessState.segmentStartSample - flushWitnessState.segmentStartSample).toNat)
          flushWitnessState.currentSegment.length < flushWitnessParams.minSegmentSamples →
        (flush_segment flushWitnessParams false flushWitnessState).2 = [])
      ∧ (flushWitnessParams.minSegmentSamples ≤ min ((max (flushWitnessState.lastVoiceSample
            + (flushWitnessParams.postPaddingSamples : ℤ)) flushWitnessState.segmentStartSample
            - flushWitnessState.segmentStartSample).toNat) flushWitnessState.currentSegment.length →
        ∃ sMs eMs dMs, (flush_segment flushWitnessParams false flushWitnessState).2
          = [Event.segment
              (if 0 ≤ flushWitnessState.activeSegmentIndex then flushWitnessState.activeSegmentIndex
                else (flushWitnessState.segmentIndex : ℤ))
              sMs eMs dMs
              (flushWitnessState.segmentProbSum / (flushWitnessState.segmentProbCount : ℚ))
              true flushWitnessState.partialSequence
              (flushWitnessState.currentSegment.take
                (min ((max (flushWitnessState.lastVoiceSample
                  + (flushWitnessParams.postPaddingSamples : ℤ)) flushWitnessState.segmentStartSample
                  - flushWitnessState.segmentStartSample).toNat)
                  flushWitnessState.currentSegment.length))])) :=
  ⟨⟨rfl, by rw [show flushWitnessState.currentSegment = List.replicate 1024 0 from rfl,
       List.length_replicate]; norm_num, by norm_num [flushWitnessState, reset_segment_state],
     by norm_num [flushWitnessState, reset_segment_state]⟩,
    natural_flush_keeps_padded_audio_or_discards flushWitnessParams flushWitnessState rfl
      (by rw [show flushWitnessState.currentSegment = List.replicate 1024 0 from rfl,
         List.length_replicate]; norm_num)
      (by norm_num [flushWitnessState, reset_segment_state])
      (by norm_num [flushWitnessState, reset_segment_state])⟩


theorem add_bias_preserves_high (nVocab tokenBeg : ℤ) (logits : Logits)
    (tokenId : ℤ) (bias : ℚ) (j : ℤ)
    (hbeg : 0 < tokenBeg) (hj : tokenBeg ≤ j) :
    add_bias nVocab tokenBeg logits tokenId bias j = logits j := by
  rw [add_bias]
  split
  · rfl
  · split
    · rfl
    · next hguard =>
        cases hm : logits tokenId with
        | none => rfl
        | some v =>
            have hne : j ≠ tokenId := by
              intro hcontra
              exact hguard ⟨hbeg, by omega⟩
            simp [hne]


theorem foldl_cont_preserves_high (nVocab tokenBeg : ℤ) (biasCont : ℚ)
    (pfx : List ℤ) (j : ℤ) (hbeg : 0 < tokenBeg) (hj : tokenBeg ≤ j) :
    ∀ (seqs : List (List ℤ)) (acc : Logits × List (ℤ × ℚ)),
    (seqs.foldl (applyCont nVocab tokenBeg biasCont pfx) acc).1 j = acc.1 j := by
  intro seqs
  induction seqs with
  | nil => intro acc; rfl
  | cons seq rest ih =>
      intro acc
      rw [List.foldl_cons, ih]
      rw [applyCont]
      split
      · rfl
      · split
        · rfl
        · exact add_bias_preserves_high _ _ _ _ _ _ hbeg hj


theorem foldl_first_preserves_high (nVocab tokenBeg : ℤ) (biasFirst : ℚ)
    (j : ℤ) (hbeg : 0 < tokenBeg) (hj : tokenBeg ≤ j) :
    ∀ (toks : List ℤ) (lg : Logits),
    (toks.foldl (fun lg tid => add_bias nVocab tokenBeg lg tid biasFirst) lg) j = lg j := by
  intro toks
  induction toks with
  | nil => intro lg; rfl
  | cons t rest ih =>
      intro lg
      rw [List.foldl_cons, ih]
      exact add_bias_preserves_high _ _ _ _ _ _ hbeg hj


/-- C4 (amended): `add_bias` is a no-op when the id is out of range, when
the id lies in the timestamp/control range AND `token_beg > 0` (for
non-positive `token_beg` the control-range guard in the source is
inactive), or when the stored logit is non-finite; when it does mutate, it
changes exactly the addressed index by exactly the bias added; and, for
`token_beg > 0`, the whole bias phase of the callback never mutates any
logit at an index `≥ token_beg`. -/
theorem add_bias_guards_and_exact_mutation (nVocab tokenBeg : ℤ)
    (logits : Logits) (tokenId : ℤ) (bias : ℚ) :
    (tokenId < 0 ∨ nVocab ≤ tokenId ∨ (0 < tokenBeg ∧ tokenBeg ≤ tokenId)
        ∨ logits tokenId = none →
      add_bias nVocab tokenBeg logits tokenId bias = logits)
    ∧ (∀ v : ℚ, 0 ≤ tokenId → tokenId < nVocab →
        ¬ (0 < tokenBeg ∧ tokenBeg ≤ tokenId) →
        logits tokenId = some v →
        add_bias nVocab tokenBeg logits tokenId bias tokenId = some (v + bias)
        ∧ ∀ j, j ≠ tokenId → add_bias nVocab tokenBeg logits tokenId bias j = logits j)
    ∧ (0 < tokenBeg →
        ∀ (dictSeqs : List (List ℤ)) (firstTokens : List ℤ) (biasFirst biasCont : ℚ)
          (pfx : List ℤ) (j : ℤ), tokenBeg ≤ j →
        (bias_phase nVocab tokenBeg dictSeqs firstTokens biasFirst biasCont pfx logits).1 j
          = logits j) := by
  refine ⟨?_, ?_, ?_⟩
  · rintro (h | h | h | h)
    · rw [add_bias, if_pos (Or.inl h)]
    · rw [add_bias, if_pos (Or.inr h)]
    · by_cases h1 : tokenId < 0 ∨ nVocab ≤ tokenId
      · rw [add_bias, if_pos h1]
      · rw [add_bias, if_neg h1, if_pos h]
    · by_cases h1 : tokenId < 0 ∨ nVocab ≤ tokenId
      · rw [add_bias, if_pos h1]
      · by_cases h2 : 0 < tokenBeg ∧ tokenBeg ≤ tokenId
        · rw [add_bias, if_neg h1, if_pos h2]
        · rw [add_bias, if_neg h1, if_neg h2, h]
  · intro v h0 hv hguard hfin
    rw [add_bias, if_neg (by omega), if_neg hguard, hfin]
    exact ⟨by simp, fun j hj => by simp [hj]⟩
  · intro hbeg dictSeqs firstTokens biasFirst biasCont pfx j hj
    rw [bias_phase]
    split
    · dsimp only
      rw [foldl_first_preserves_high _ _ _ _ hbeg hj,
        foldl_cont_preserves_high _ _ _ _ _ hbeg hj]
    · dsimp only
      rw [foldl_cont_preserves_high _ _ _ _ _ hbeg hj]


/-- Witness for the amended C4: a concrete in-range mutation (vocab 3,
`token_beg = 2`, id 0) changes the logit by exactly the bias. -/
theorem add_bias_guards_and_exact_mutation_witness :
    ((0 : ℤ) ≤ 0 ∧ (0 : ℤ) < 3 ∧ ¬ ((0 : ℤ) < 2 ∧ (2 : ℤ) ≤ 0)
      ∧ (fun _ : ℤ => some (5 : ℚ)) 0 = some 5)
    ∧ (add_bias 3 2 (fun _ => some (5 : ℚ)) 0 1 0 = some (5 + 1)
        ∧ ∀ j, j ≠ 0 → add_bias 3 2 (fun _ => some (5 : ℚ)) 0 1 j
            = (fun _ : ℤ => some (5 : ℚ)) j) :=
  ⟨⟨le_refl 0, by norm_num, by norm_num, rfl⟩,
    (add_bias_guards_and_exact_mutation 3 2 (fun _ => some 5) 0 1).2.1 5
      (le_refl 0) (by norm_num) (by norm_num) rfl⟩


/-- Counterexample to C4 as stated: when the acoustic model reports
`token_beg = 0`, the guard `token_beg > 0 && id >= token_beg` in the
source is inactive, so `add_bias` DOES mutate a logit at an index
`id = 0 ≥ token_beg`: the stored finite logit 0 becomes 1. -/
theorem add_bias_mutates_at_nonpositive_token_beg :
    (0 : ℤ) ≤ (0 : ℤ)
    ∧ add_bias 1 0 (fun _ => some (0 : ℚ)) 0 1 0 = some 1
    ∧ add_bias 1 0 (fun _ => some (0 : ℚ)) 0 1 0 ≠ (fun _ : ℤ => some (0 : ℚ)) 0 := by
  refine ⟨le_refl 0, ?_, ?_⟩
  · have h1 : add_bias 1 0 (fun _ => some (0 : ℚ)) 0 1 0 = some (0 + 1) := by
      rw [add_bias, if_neg (by norm_num), if_neg (by norm_num)]
      simp
    rw [h1]
    norm_num
  · have h1 : add_bias 1 0 (fun _ => some (0 : ℚ)) 0 1 0 = some (0 + 1) := by
      rw [add_bias, if_neg (by norm_num), if_neg (by norm_num)]
      simp
    rw [h1]
    simp


theorem beamWarnings_warned (b : ℕ) : ∀ d : ℕ, beamWarnings b d true = 0 := by
  intro d
  induction d with
  | zero => rfl
  | succ d ih =>
      rw [beamWarnings, beamWarnStep]
      split
      · next h => exact absurd h.2 (by simp)
      · simpa using ih


/-- C7: with bias decoding enabled, the beam size passed to the acoustic
model is `clamp(requested_beam, 2, 8)`; a requested beam of 0 selects the
acoustic model's default (5); a request above 8 is clamped to 8; and over
any number `d ≥ 1` of decodes with such a request, exactly one stderr
warning is printed, on the first decode. -/
theorem beam_clamped_and_single_warning (b d : ℕ) :
    clampedBeam b = min kWhisperMaxDecoders (max 2 (requestedBeam b))
    ∧ clampedBeam 0 = whisperDefaultBeamSize
    ∧ 2 ≤ clampedBeam b ∧ clampedBeam b ≤ 8
    ∧ (8 < b → clampedBeam b = 8)
    ∧ (8 < b → 1 ≤ d →
        beamWarnings b d false = 1 ∧ (beamWarnStep b false).2 = 1) := by
  refine ⟨?_, rfl, ?_, ?_, ?_, ?_⟩
  · simp only [clampedBeam, requestedBeam, kWhisperMaxDecoders, whisperDefaultBeamSize]
    split_ifs <;> omega
  · simp only [clampedBeam, requestedBeam, kWhisperMaxDecoders, whisperDefaultBeamSize]
    split_ifs <;> omega
  · simp only [clampedBeam, requestedBeam, kWhisperMaxDecoders, whisperDefaultBeamSize]
    split_ifs <;> omega
  · intro hb
    simp only [clampedBeam, requestedBeam, kWhisperMaxDecoders, whisperDefaultBeamSize]
    split_ifs <;> omega
  · intro hb hd
    have hcond : requestedBeam b ≠ clampedBeam b := by
      simp only [clampedBeam, requestedBeam, kWhisperMaxDecoders, whisperDefaultBeamSize]
      split_ifs <;> omega
    have hstep : beamWarnStep b false = (true, 1) := by
      rw [beamWarnStep, if_pos ⟨hcond, rfl⟩]
    constructor
    · obtain ⟨d0, rfl⟩ : ∃ d0, d = d0 + 1 := ⟨d - 1, by omega⟩
      rw [beamWarnings, hstep]
      simp [beamWarnings_warned]
    · rw [hstep]


/-- Witness for C7 at `--beam-size 10` over 3 decodes. -/
theorem beam_clamped_and_single_warning_witness :
    ((8 : ℕ) < 10 ∧ (1 : ℕ) ≤ 3)
    ∧ (clampedBeam 10 = 8 ∧ beamWarnings 10 3 false = 1 ∧ (beamWarnStep 10 false).2 = 1) :=
  ⟨⟨by norm_num, by norm_num⟩,
    (beam_clamped_and_single_warning 10 3).2.2.2.2.1 (by norm_num),
    ((beam_clamped_and_single_warning 10 3).2.2.2.2.2 (by norm_num) (by norm_num)).1,
    ((beam_clamped_and_single_warning 10 3).2.2.2.2.2 (by norm_num) (by norm_num)).2⟩


theorem variantFold_preserves_AccInv (tokenize : String → List ℤ) (entry : String) :
    ∀ (texts : List String) (acc : RebuildAcc), AccInv acc →
    AccInv (texts.foldl
      (fun acc2 text =>
        let seq := tokenize text
        if seq.length = 0 then acc2
        else
          let acc3 :=
            if seq.headI ∈ acc2.firstSeen then acc2
            else { acc2 with
                    firstSeen := insert seq.headI acc2.firstSeen,
                    firstTokens := acc2.firstTokens ++ [seq.headI],
                    firstTokenIds := insert seq.headI acc2.firstTokenIds }
          { acc3 with
              tokenSeqs := acc3.tokenSeqs ++ [seq],
              entryTexts := acc3.entryTexts ++ [entry],
              totalTokens := acc3.totalTokens + seq.length }) acc) := by
  intro texts
  induction texts with
  | nil => intro acc h; exact h
  | cons text rest ih =>
      intro acc h
      rw [List.foldl_cons]
      apply ih
      obtain ⟨hseqs, hids, hnodup, hseen, htot⟩ := h
      dsimp only
      by_cases hz : (tokenize text).length = 0
      · rw [if_pos hz]
        exact ⟨hseqs, hids, hnodup, hseen, htot⟩
      · rw [if_neg hz]
        have hseqne : tokenize text ≠ [] := by
          intro hnil
          rw [hnil] at hz
          exact hz rfl
        by_cases hmem : (tokenize text).headI ∈ acc.firstSeen
        · rw [if_pos hmem]
          refine ⟨?_, hids, hnodup, hseen, ?_⟩
          · intro seq hseq
            rcases List.mem_append.mp hseq with hseq | hseq
            · exact hseqs seq hseq
            · rcases List.mem_singleton.mp hseq with rfl
              rw [hseen] at hmem
              exact ⟨hseqne, hmem⟩
          · rw [List.map_append, List.sum_append, htot]
            simp
        · rw [if_neg hmem]
          have hnotin : (tokenize text).headI ∉ acc.firstTokens := by
            intro hcontra
            apply hmem
            rw [hseen, hids]
            exact List.mem_toFinset.mpr hcontra
          refine ⟨?_, ?_, ?_, ?_, ?_⟩
          · intro seq hseq
            rcases List.mem_append.mp hseq with hseq | hseq
            · obtain ⟨hne, hmem2⟩ := hseqs seq hseq
              exact ⟨hne, Finset.mem_insert_of_mem hmem2⟩
            · rcases List.mem_singleton.mp hseq with rfl
              exact ⟨hseqne, Finset.mem_insert_self _ _⟩
          · rw [hids, List.toFinset_append]
            simp [Finset.insert_eq, Finset.union_comm]
          · rw [List.nodup_append]
            exact ⟨hnodup, List.nodup_singleton _,
              by simpa [List.disjoint_singleton] using hnotin⟩
          · rw [hseen, hids]
          · rw [List.map_append, List.sum_append, htot]
            simp


theorem rebuildIndices_AccInv (entries : List String) (tokenize : String → List ℤ) :
    AccInv (rebuildIndices entries tokenize) := by
  rw [rebuildIndices]
  have hinit : AccInv ⟨[], [], [], ∅, ∅, 0⟩ := by
    refine ⟨?_, ?_, ?_, ?_, ?_⟩ <;> simp
  revert hinit
  generalize (⟨[], [], [], ∅, ∅, 0⟩ : RebuildAcc) = acc0
  revert acc0
  induction entries with
  | nil => intro acc0 h; exact h
  | cons e rest ih =>
      intro acc0 h
      rw [List.foldl_cons]
      apply ih
      rw [rebuildStep]
      split
      · exact h
      · exact variantFold_preserves_AccInv tokenize e _ acc0 h


/-- C8: after every dictionary reload call the index invariants hold:
every sequence in `token_seqs` is non-empty with its first token in
`first_token_ids`; `first_token_ids` and `first_tokens_ordered` carry
identical membership (and hence equal cardinality, the ordered list being
duplicate-free); and `dict_total_tokens` equals the sum of the lengths of
all sequences.  (The no-reload paths keep the previous, already-invariant
indices; the initial state is invariant.) -/
theorem dictionary_reload_invariants (pathSet force pollElapsed : Bool)
    (mtime : Except String ℤ) (content : Option String)
    (tokenize : String → List ℤ) (st : DictState)
    (hinv : DictInv st) :
    DictInv (reload_dictionary_if_needed pathSet force pollElapsed mtime content tokenize st).1
    ∧ (reload_dictionary_if_needed pathSet force pollElapsed mtime content tokenize st).1.firstTokenIds.card
      = (reload_dictionary_if_needed pathSet force pollElapsed mtime content tokenize st).1.firstTokens.length
    ∧ DictInv dictInit := by
  have hcard : ∀ st2 : DictState, DictInv st2 →
      st2.firstTokenIds.card = st2.firstTokens.length := by
    intro st2 h2
    rw [h2.2.1, List.toFinset_card_of_nodup h2.2.2.1]
  have hcleared : ∀ err, DictInv (clearedDict err st) := by
    intro err
    refine ⟨?_, ?_, ?_, ?_⟩ <;> simp [clearedDict]
  have hmain : DictInv (reload_dictionary_if_needed pathSet force pollElapsed
      mtime content tokenize st).1 := by
    unfold reload_dictionary_if_needed
    split
    · exact hcleared _
    · split
      · exact hinv
      · split
        · exact hcleared _
        · split
          · exact hinv
          · split
            · exact hcleared _
            · dsimp only
              obtain ⟨h1, h2, h3, _, h5⟩ :=
                rebuildIndices_AccInv (split_dictionary_entries _) tokenize
              exact ⟨h1, h2, h3, h5⟩
  refine ⟨hmain, hcard _ hmain, ?_⟩
  refine ⟨?_, ?_, ?_, ?_⟩ <;> simp [dictInit]


/-- Witness for C8 at a concrete reload: two entries, a tokenizer mapping
every text to a one-token sequence. -/
theorem dictionary_reload_invariants_witness :
    DictInv dictInit
    ∧ (DictInv (reload_dictionary_if_needed true false true (.ok 5) (some "ab cd")
          (fun s => [(s.length : ℤ)]) dictInit).1
      ∧ (reload_dictionary_if_needed true false true (.ok 5) (some "ab cd")
          (fun s => [(s.length : ℤ)]) dictInit).1.firstTokenIds.card
        = (reload_dictionary_if_needed true false true (.ok 5) (some "ab cd")
            (fun s => [(s.length : ℤ)]) dictInit).1.firstTokens.length
      ∧ DictInv dictInit) :=
  ⟨⟨by simp [dictInit], by simp [dictInit], by simp [dictInit], by simp [dictInit]⟩,
    dictionary_reload_invariants true false true (.ok 5) (some "ab cd")
      (fun s => [(s.length : ℤ)]) dictInit
      ⟨by simp [dictInit], by simp [dictInit], by simp [dictInit], by simp [dictInit]⟩⟩


/-- C9 (amended): when `reload_if_needed` runs with the poll interval
elapsed, the file's mtime available and unchanged since the last reload,
and `force` unset, it emits exactly one `dictionary` event with
`reloaded = false` and leaves the whole dictionary state — every index,
the cached text and the token totals — unchanged.  (When the poll interval
has NOT elapsed, the call returns without emitting any event; see the
counterexample.) -/
theorem reload_unchanged_mtime_noop_event (m : ℤ) (content : Option String)
    (tokenize : String → List ℤ) (st : DictState)
    (hm : some m = st.lastMtime) :
    reload_dictionary_if_needed true false true (.ok m) content tokenize st
      = (st, [emitDictEvent st true false])
    ∧ (emitDictEvent st true false).reloaded = false := by
  constructor
  · unfold reload_dictionary_if_needed
    simp [hm]
  · rfl


/-- Witness for the amended C9 at a concrete state. -/
theorem reload_unchanged_mtime_noop_event_witness :
    (some (5 : ℤ) = ({ dictInit with lastMtime := some 5 } : DictState).lastMtime)
    ∧ (reload_dictionary_if_needed true false true (.ok 5) (some "hello")
          (fun _ => [1]) { dictInit with lastMtime := some 5 }
        = ({ dictInit with lastMtime := some 5 },
            [emitDictEvent { dictInit with lastMtime := some 5 } true false])
      ∧ (emitDictEvent { dictInit with lastMtime := some 5 } true false).reloaded = false) :=
  ⟨rfl,
    reload_unchanged_mtime_noop_event 5 (some "hello") (fun _ => [1])
      { dictInit with lastMtime := some 5 } rfl⟩


/-- Counterexample to C9 as stated: a call with the mtime unchanged and
`force` unset that arrives before `dictionary_poll_ms` has elapsed returns
WITHOUT emitting any `dictionary` event (the source returns before the
mtime check when `!force && elapsed < poll`), so "invoked with mtime
unchanged and force unset ⟹ emits a reloaded=false event" is false. -/
theorem reload_within_poll_interval_emits_nothing :
    reload_dictionary_if_needed true false false (.ok 5) (some "hello")
        (fun _ => [1]) { dictInit with lastMtime := some 5 }
      = ({ dictInit with lastMtime := some 5 }, [])
    ∧ (reload_dictionary_if_needed true false false (.ok 5) (some "hello")
        (fun _ => [1]) { dictInit with lastMtime := some 5 }).2.length = 0 := by
  constructor
  · rfl
  · rfl

end Openflow

